import Mathlib

/-!
Verification of the OTA update subsystem of the trimix-analysator firmware
(`src/utils/ota_update_manager.cpp`).  The C++ code is shallowly embedded:
pure functions become Lean functions, the stateful download/install flow
becomes explicit state passing over an `OTAState` record together with a
trace of emitted `Action`s (callback invocations, update-target operations,
HTTP requests), and the network/stream environment is an explicit input.
C++ exceptions and fallible operations are modelled with `Option`.
Machine integers (`size_t`, `int`) are modelled as `Nat`/`Int`, with the
32-bit behaviour of the target made explicit where it matters: `std::stoi`
fails outside the `int` range, and the `size_t` product in
`updateProgress` wraps modulo 2^32.
-/

namespace OTA

/-! ### Version comparison (`OTAUpdateManager::compareVersions`)

The C++ helper `parseVersion` strips a leading `'v'` (and only `'v'`:
`if (current[0] == 'v')`), then scans the string, splitting on `'.'` with
`find`/`substr` and converting each piece with `std::stoi`.  `std::stoi`
skips leading whitespace, accepts an optional sign, converts the longest
leading digit run, throws `std::invalid_argument` when there is none, and
throws `std::out_of_range` when the converted value does not fit a 32-bit
`int` (INT_MIN = -2147483648 .. INT_MAX = 2147483647); either thrown
exception is modelled as `none`. -/

/-- Characters accepted as whitespace by `std::isspace` in the default
locale, which `std::stoi` skips. -/
def isSpaceChar (c : Char) : Bool :=
  c.toNat = 32 || c.toNat = 9 || c.toNat = 10 || c.toNat = 13 || c.toNat = 11 || c.toNat = 12

/-- Numeric value of a run of decimal digit characters (most significant
first), as accumulated by `std::stoi`. -/
def digitsToNat (ds : List Char) : Nat :=
  ds.foldl (fun a c => 10 * a + (c.toNat - 48)) 0

/-- Conversion of the remainder after an optional sign: `std::stoi` takes
the longest leading digit run; no digits at all is `std::invalid_argument`
and a value outside the 32-bit `int` range is `std::out_of_range` (both
modelled `none`). -/
def stoiFrom (sign : Int) (rest : List Char) : Option Int :=
  let ds := rest.takeWhile Char.isDigit
  if ds.isEmpty then none
  else
    let v : Int := sign * (digitsToNat ds : Int)
    if v < -2147483648 ∨ 2147483647 < v then none else some v

/-- Model of `std::stoi` on a character list: skip whitespace, optional
`'-'`/`'+'`, then the longest leading digit run; `none` models the
`std::invalid_argument` exception. -/
def stoiChars (cs : List Char) : Option Int :=
  match cs.dropWhile isSpaceChar with
  | [] => none
  | c :: rest =>
    if c = '-' then stoiFrom (-1) rest
    else if c = '+' then stoiFrom 1 rest
    else stoiFrom 1 (c :: rest)

/-- Worker for the `find('.')`/`substr` splitting loop of `parseVersion`.
The C++ loop runs while `pos < current.length()`, so after a dot that ends
the string (`pos = next + 1 = length`) no further (empty) segment is
produced, while a dot with more text after it emits the accumulated
segment and continues. -/
def splitPartsAux : List Char → List Char → List (List Char)
  | acc, [] => [acc.reverse]
  | acc, c :: rest =>
    if c = '.' then
      match rest with
      | [] => [acc.reverse]
      | _ :: _ => acc.reverse :: splitPartsAux [] rest
    else splitPartsAux (c :: acc) rest

/-- Splitting of a version body on `'.'`.  On the empty string the C++
loop body never runs and the part vector stays empty. -/
def splitParts (cs : List Char) : List (List Char) :=
  match cs with
  | [] => []
  | _ :: _ => splitPartsAux [] cs

/-- Removal of the version marker: the C++ code strips exactly a leading
`'v'` (`if (current[0] == 'v') current = current.substr(1)`); on the empty
string `current[0]` reads the terminating NUL, which is not `'v'`. -/
def stripLeadingV (cs : List Char) : List Char :=
  match cs with
  | [] => []
  | c :: rest => if c = 'v' then rest else c :: rest

/-- Sequential conversion of the split parts, as done by the C++ loop's
`parts.push_back(std::stoi(part))`: the first conversion failure aborts
the whole parse (the exception propagates past the remaining parts). -/
def convertParts : List (List Char) → Option (List Int)
  | [] => some []
  | p :: ps => do
    let v ← stoiChars p
    let vs ← convertParts ps
    pure (v :: vs)

/-- Model of the C++ lambda `parseVersion`: strip the `'v'`, split on
`'.'`, convert every part with `std::stoi`. -/
def parseVersion (version : String) : Option (List Int) :=
  convertParts (splitParts (stripLeadingV version.data))

/-- Padding with trailing zeros, as done by the two
`while (versionX.size() < versionY.size()) versionX.push_back(0)` loops:
both vectors end up at the maximum of the two lengths. -/
def padWithZeros (l : List Int) (n : Nat) : List Int :=
  l ++ List.replicate (n - l.length) 0

/-- Component-wise comparison loop over the two equal-length padded
vectors: the first index where they differ decides, otherwise 0. -/
def cmpComponentwise : List Int → List Int → Int
  | a :: as, b :: bs => if a > b then 1 else if a < b then -1 else cmpComponentwise as bs
  | _, _ => 0

/-- Model of `OTAUpdateManager::compareVersions`: parse both strings, pad
to equal length, compare component-wise.  Result `some 1`, `some (-1)`,
`some 0` for greater/less/equal; `none` models an uncaught `std::stoi`
exception escaping the function. -/
def compareVersions (v1 v2 : String) : Option Int := do
  let p1 ← parseVersion v1
  let p2 ← parseVersion v2
  let n := max p1.length p2.length
  return cmpComponentwise (padWithZeros p1 n) (padWithZeros p2 n)

/-! ### Spec-side version order

`specCompare` is written from the specification text alone: split into
non-negative integer components, conceptually pad the shorter sequence
with trailing zeros, and let the first differing component decide. -/

/-- Comparison of an exhausted left sequence (all further left components
are the padded zeros) against the remaining right components. -/
def specZeros : List Nat → Int
  | [] => 0
  | b :: bs => if 0 < b then -1 else specZeros bs

/-- Specification-side comparison of two component sequences: a missing
component counts as zero, the first difference decides. -/
def specCompare : List Nat → List Nat → Int
  | [], bs => specZeros bs
  | a :: as, [] => if 0 < a then 1 else specCompare as []
  | a :: as, b :: bs => if b < a then 1 else if a < b then -1 else specCompare as bs

/-- Int view of a Nat component sequence (C++ stores components as `int`). -/
def natsToInts (l : List Nat) : List Int := l.map fun n : Nat => (n : Int)

/-- Well-formed component material: a non-empty list of non-empty
all-digit components, each denoting a value that fits a 32-bit `int`
(beyond INT_MAX `std::stoi` throws `std::out_of_range`). -/
def VersionChars (parts : List (List Char)) : Prop :=
  parts ≠ [] ∧ ∀ p ∈ parts,
    p ≠ [] ∧ (∀ c ∈ p, c.isDigit) ∧ digitsToNat p ≤ 2147483647

instance : DecidablePred VersionChars := fun ps =>
  inferInstanceAs (Decidable (ps ≠ [] ∧ ∀ p ∈ ps,
    p ≠ [] ∧ (∀ c ∈ p, c.isDigit) ∧ digitsToNat p ≤ 2147483647))

/-- Interleaving of components with `'.'` separators. -/
def joinDots : List (List Char) → List Char
  | [] => []
  | [p] => p
  | p :: ps => p ++ '.' :: joinDots ps

/-- Character material contributed by an optional marker character. -/
def markerChars : Option Char → List Char
  | some c => [c]
  | none => []

/-- A version string assembled from an optional one-character marker and
its components. -/
def renderVersion (marker : Option Char) (parts : List (List Char)) : String :=
  String.mk (markerChars marker ++ joinDots parts)

/-! ### Auxiliary lemmas about the version parser -/

theorem isDigit_toNat_bounds {c : Char} (h : c.isDigit) : 48 ≤ c.toNat ∧ c.toNat ≤ 57 := by
  simp [Char.isDigit, Char.le_def, Char.toNat] at h ⊢
  exact ⟨h.1, h.2⟩

theorem isDigit_not_space {c : Char} (h : c.isDigit) : isSpaceChar c = false := by
  have hb := isDigit_toNat_bounds h
  simp [isSpaceChar]
  omega

theorem isDigit_ne_char {c : Char} (h : c.isDigit) {d : Char}
    (hd : d.toNat < 48 ∨ 57 < d.toNat) : ¬ c = d := by
  intro he
  subst he
  have hb := isDigit_toNat_bounds h
  omega

theorem stoiChars_digits (p : List Char) (hne : p ≠ []) (hd : ∀ c ∈ p, c.isDigit)
    (hsmall : digitsToNat p ≤ 2147483647) :
    stoiChars p = some ((digitsToNat p : Nat) : Int) := by
  cases p with
  | nil => exact absurd rfl hne
  | cons c cs =>
    have hc : c.isDigit := hd c (by simp)
    have h1 : isSpaceChar c = false := isDigit_not_space hc
    have h2 : ¬ c = '-' := isDigit_ne_char hc (by decide)
    have h3 : ¬ c = '+' := isDigit_ne_char hc (by decide)
    have h4 : List.takeWhile Char.isDigit (c :: cs) = c :: cs :=
      List.takeWhile_eq_self_iff.mpr hd
    simp only [stoiChars, List.dropWhile_cons, h1, Bool.false_eq_true, if_false,
      if_neg h2, if_neg h3, stoiFrom, h4, List.isEmpty_cons, one_mul]
    rw [if_neg (by omega)]

theorem convertParts_digits (ps : List (List Char))
    (h : ∀ p ∈ ps, p ≠ [] ∧ (∀ c ∈ p, c.isDigit) ∧ digitsToNat p ≤ 2147483647) :
    convertParts ps = some (ps.map fun p => ((digitsToNat p : Nat) : Int)) := by
  induction ps with
  | nil => rfl
  | cons p ps ih =>
    have hp := h p (by simp)
    have hps := ih (fun q hq => h q (by simp [hq]))
    simp only [convertParts, stoiChars_digits p hp.1 hp.2.1 hp.2.2, hps, Option.bind_some,
      List.map_cons, Option.some_bind, Option.bind_eq_bind]
    rfl

theorem splitPartsAux_append (p : List Char) (acc rest : List Char)
    (hnd : ∀ c ∈ p, ¬ c = '.') :
    splitPartsAux acc (p ++ rest) = splitPartsAux (p.reverse ++ acc) rest := by
  induction p generalizing acc with
  | nil => simp
  | cons c cs ih =>
    have hc : ¬ c = '.' := hnd c (by simp)
    have hcs : ∀ x ∈ cs, ¬ x = '.' := fun x hx => hnd x (by simp [hx])
    have h1 : splitPartsAux acc ((c :: cs) ++ rest) = splitPartsAux (c :: acc) (cs ++ rest) := by
      rw [List.cons_append, splitPartsAux.eq_def]
      simp [if_neg hc]
    rw [h1, ih (c :: acc) hcs, List.reverse_cons, List.append_assoc, List.singleton_append]

theorem splitPartsAux_dot_cons (acc : List Char) (d : Char) (ds : List Char) :
    splitPartsAux acc ('.' :: d :: ds) = acc.reverse :: splitPartsAux [] (d :: ds) := by
  rw [splitPartsAux.eq_def]
  simp

theorem joinDots_ne_nil : ∀ ps : List (List Char), ps ≠ [] → (∀ p ∈ ps, p ≠ []) →
    joinDots ps ≠ []
  | [], h, _ => absurd rfl h
  | [p], _, hp => by simpa [joinDots] using hp p (by simp)
  | _ :: _ :: _, _, _ => by simp [joinDots]

theorem splitParts_joinDots : ∀ ps : List (List Char), ps ≠ [] →
    (∀ p ∈ ps, p ≠ [] ∧ ∀ c ∈ p, ¬ c = '.') → splitParts (joinDots ps) = ps
  | [], h, _ => absurd rfl h
  | [p], _, hp => by
    have hpne : p ≠ [] := (hp p (by simp)).1
    have hnd : ∀ c ∈ p, ¬ c = '.' := (hp p (by simp)).2
    cases p with
    | nil => exact absurd rfl hpne
    | cons c cs =>
      show splitParts (c :: cs) = [c :: cs]
      calc splitParts (c :: cs) = splitPartsAux [] ((c :: cs) ++ []) := by
              simp [splitParts]
        _ = splitPartsAux ((c :: cs).reverse ++ []) [] := splitPartsAux_append _ _ _ hnd
        _ = [c :: cs] := by simp [splitPartsAux]
  | p :: q :: ps, _, hp => by
    have hpne : p ≠ [] := (hp p (by simp)).1
    have hnd : ∀ c ∈ p, ¬ c = '.' := (hp p (by simp)).2
    have IH := splitParts_joinDots (q :: ps) (by simp)
      (fun r hr => hp r (List.mem_cons_of_mem _ hr))
    have hjne : joinDots (q :: ps) ≠ [] :=
      joinDots_ne_nil (q :: ps) (by simp)
        (fun r hr => (hp r (List.mem_cons_of_mem _ hr)).1)
    have hjoin : joinDots (p :: q :: ps) = p ++ '.' :: joinDots (q :: ps) := rfl
    cases hp0 : p with
    | nil => exact absurd hp0 hpne
    | cons c cs =>
      subst hp0
      rw [hjoin]
      have hstep : splitParts ((c :: cs) ++ '.' :: joinDots (q :: ps))
          = splitPartsAux [] ((c :: cs) ++ '.' :: joinDots (q :: ps)) := by
        simp [splitParts]
      rw [hstep, splitPartsAux_append _ _ _ hnd]
      cases hj : joinDots (q :: ps) with
      | nil => exact absurd hj hjne
      | cons d ds =>
        rw [List.append_nil, splitPartsAux_dot_cons, List.reverse_reverse,
          show splitPartsAux [] (d :: ds) = splitParts (d :: ds) from rfl, ← hj, IH]

theorem joinDots_head (c : Char) (cs : List Char) (ps : List (List Char)) :
    ∃ t, joinDots ((c :: cs) :: ps) = c :: t := by
  cases ps with
  | nil => exact ⟨cs, rfl⟩
  | cons q qs => exact ⟨cs ++ '.' :: joinDots (q :: qs), rfl⟩

theorem stripLeadingV_render (m : Option Char) (hm : m = none ∨ m = some 'v')
    (ps : List (List Char)) (h : VersionChars ps) :
    stripLeadingV (markerChars m ++ joinDots ps) = joinDots ps := by
  rcases hm with hm | hm <;> subst hm
  · obtain ⟨hne, hp⟩ := h
    cases ps with
    | nil => exact absurd rfl hne
    | cons p ps =>
      obtain ⟨hpne, hpd, _⟩ := hp p (by simp)
      cases p with
      | nil => exact absurd rfl hpne
      | cons c cs =>
        obtain ⟨t, ht⟩ := joinDots_head c cs ps
        have hcv : ¬ c = 'v' :=
          isDigit_ne_char (hpd c (by simp)) (Or.inr (by decide))
        rw [show markerChars none = [] from rfl, List.nil_append, ht]
        simp [stripLeadingV, if_neg hcv]
  · rw [show markerChars (some 'v') = ['v'] from rfl]
    simp [stripLeadingV]

theorem parseVersion_render (m : Option Char) (ps : List (List Char))
    (hm : m = none ∨ m = some 'v') (h : VersionChars ps) :
    parseVersion (renderVersion m ps)
      = some (ps.map fun p => ((digitsToNat p : Nat) : Int)) := by
  unfold parseVersion renderVersion
  rw [show (String.mk (markerChars m ++ joinDots ps)).data
      = markerChars m ++ joinDots ps from rfl]
  rw [stripLeadingV_render m hm ps h]
  rw [splitParts_joinDots ps h.1 (fun p hp => ⟨(h.2 p hp).1,
      fun c hc => isDigit_ne_char ((h.2 p hp).2.1 c hc) (Or.inl (by decide))⟩)]
  exact convertParts_digits ps h.2

/-! ### The padded component comparison equals the spec-side order -/

theorem cmpComponentwise_cons (a b : Int) (as bs : List Int) :
    cmpComponentwise (a :: as) (b :: bs)
      = if a > b then 1 else if a < b then -1 else cmpComponentwise as bs := by
  rw [cmpComponentwise.eq_def]

theorem specCompare_cons (a b : Nat) (as bs : List Nat) :
    specCompare (a :: as) (b :: bs)
      = if b < a then 1 else if a < b then -1 else specCompare as bs := by
  rw [specCompare.eq_def]

theorem specCompare_cons_nil (a : Nat) (as : List Nat) :
    specCompare (a :: as) [] = if 0 < a then 1 else specCompare as [] := by
  rw [specCompare.eq_def]

theorem specCompare_nil_cons (b : Nat) (bs : List Nat) :
    specCompare [] (b :: bs) = if 0 < b then -1 else specCompare [] bs := by
  simp only [specCompare.eq_def, specZeros]

theorem cmp_zeros_right : ∀ a : List Nat,
    cmpComponentwise (natsToInts a) (List.replicate a.length 0)
      = specCompare a []
  | [] => by simp [natsToInts, cmpComponentwise.eq_def, specCompare.eq_def, specZeros]
  | x :: xs => by
    rw [show natsToInts (x :: xs) = (x : Int) :: natsToInts xs from rfl,
      List.length_cons, List.replicate_succ, cmpComponentwise_cons,
      specCompare_cons_nil]
    by_cases hx : 0 < x
    · rw [if_pos (by exact_mod_cast hx : (x : Int) > 0), if_pos hx]
    · have hx0 : x = 0 := by omega
      subst hx0
      rw [if_neg (by omega), if_neg (by omega), if_neg (by omega), cmp_zeros_right xs]

theorem cmp_zeros_left : ∀ b : List Nat,
    cmpComponentwise (List.replicate b.length 0) (natsToInts b)
      = specCompare [] b
  | [] => by simp [natsToInts, cmpComponentwise.eq_def, specCompare.eq_def, specZeros]
  | y :: ys => by
    rw [show natsToInts (y :: ys) = (y : Int) :: natsToInts ys from rfl,
      List.length_cons, List.replicate_succ, cmpComponentwise_cons,
      specCompare_nil_cons]
    by_cases hy : 0 < y
    · rw [if_neg (by omega), if_pos (by exact_mod_cast hy : (0 : Int) < y), if_pos hy]
    · have hy0 : y = 0 := by omega
      subst hy0
      rw [if_neg (by omega), if_neg (by omega), if_neg (by omega), cmp_zeros_left ys]

theorem cmp_pad_eq_spec : ∀ a b : List Nat,
    cmpComponentwise (padWithZeros (natsToInts a) (max a.length b.length))
                     (padWithZeros (natsToInts b) (max a.length b.length))
      = specCompare a b
  | [], [] => by simp [natsToInts, padWithZeros, cmpComponentwise.eq_def, specCompare.eq_def, specZeros]
  | [], y :: ys => by
    have h1 : padWithZeros (natsToInts []) ((y :: ys).length)
        = List.replicate ((y :: ys).length) 0 := by
      simp [natsToInts, padWithZeros]
    have h2 : padWithZeros (natsToInts (y :: ys)) ((y :: ys).length)
        = natsToInts (y :: ys) := by
      simp [natsToInts, padWithZeros]
    rw [show max (List.length ([] : List Nat)) ((y :: ys).length) = (y :: ys).length
        from by simp, h1, h2]
    exact cmp_zeros_left (y :: ys)
  | x :: xs, [] => by
    have h1 : padWithZeros (natsToInts (x :: xs)) ((x :: xs).length)
        = natsToInts (x :: xs) := by
      simp [natsToInts, padWithZeros]
    have h2 : padWithZeros (natsToInts []) ((x :: xs).length)
        = List.replicate ((x :: xs).length) 0 := by
      simp [natsToInts, padWithZeros]
    rw [show max ((x :: xs).length) (List.length ([] : List Nat)) = (x :: xs).length
        from by simp, h1, h2]
    exact cmp_zeros_right (x :: xs)
  | x :: xs, y :: ys => by
    have hmax : max (x :: xs).length (y :: ys).length = (max xs.length ys.length) + 1 := by
      simp [Nat.succ_max_succ]
    have hpad : ∀ (z : Nat) (zs : List Nat),
        padWithZeros (natsToInts (z :: zs)) ((max xs.length ys.length) + 1)
          = (z : Int) :: padWithZeros (natsToInts zs) (max xs.length ys.length) := by
      intro z zs
      simp [natsToInts, padWithZeros, Nat.succ_sub_succ]
    rw [hmax, hpad x xs, hpad y ys, cmpComponentwise_cons, specCompare_cons]
    by_cases hxy : y < x
    · rw [if_pos (by exact_mod_cast hxy : (x : Int) > y), if_pos hxy]
    · by_cases hyx : x < y
      · rw [if_neg (by exact_mod_cast hxy), if_pos (by exact_mod_cast hyx : (x : Int) < y),
          if_neg hxy, if_pos hyx]
      · rw [if_neg (by exact_mod_cast hxy), if_neg (by exact_mod_cast hyx),
          if_neg hxy, if_neg hyx, cmp_pad_eq_spec xs ys]

/-! ### Claim C1 -/

/-- C1 counterexample: the claim's quantification fails on two counts.
First, the code strips only a lowercase `'v'`, not an arbitrary
non-numeric marker: with marker `'x'` `std::stoi` throws (modelled
`none`) where the claim predicts equality (`specCompare [1,2] [1,2] = 0`),
and with marker `'-'` the sign is consumed by `std::stoi`, so
`compare("-2.0","1.0")` is less where the claim predicts greater
(`specCompare [2,0] [1,0] = 1`).  Second, a component whose value exceeds
INT_MAX makes `std::stoi` throw `std::out_of_range` instead of comparing:
`compare("9999999999","1")` crashes where the claim predicts greater. -/
theorem compareVersions_marker_counterexample :
    compareVersions (renderVersion (some 'x') [['1'], ['2']])
        (renderVersion none [['1'], ['2']]) = none
      ∧ renderVersion (some 'x') [['1'], ['2']] = "x1.2"
      ∧ specCompare [1, 2] [1, 2] = 0
      ∧ compareVersions "-2.0" "1.0" = some (-1)
      ∧ specCompare [2, 0] [1, 0] = 1
      ∧ compareVersions "9999999999" "1" = none
      ∧ specCompare [9999999999] [1] = 1 := by decide

/-- C1 (amended: the optional marker must be the single character `'v'` —
a `'+'` marker happens to be transparent because `std::stoi` reads it as
a sign, a `'-'` marker negates the first component and flips the order,
any other marker crashes — and every component value must fit a 32-bit
`int`, since `std::stoi` throws `std::out_of_range` above 2147483647):
for every pair of version strings made of dot-separated non-negative
integer components within `int` range, each optionally prefixed with
`'v'`, `compareVersions` strips the marker, splits on `'.'`, pads the
shorter component sequence with trailing zeros, and compares
component-wise left to right, the first differing component determining
the result (greater/less/equal). -/
theorem compareVersions_componentwise (m1 m2 : Option Char) (ps1 ps2 : List (List Char))
    (hm1 : m1 = none ∨ m1 = some 'v') (hm2 : m2 = none ∨ m2 = some 'v')
    (h1 : VersionChars ps1) (h2 : VersionChars ps2) :
    compareVersions (renderVersion m1 ps1) (renderVersion m2 ps2)
      = some (specCompare (ps1.map digitsToNat) (ps2.map digitsToNat)) := by
  have hA : ∀ ps : List (List Char),
      (ps.map fun p => ((digitsToNat p : Nat) : Int)) = natsToInts (ps.map digitsToNat) := by
    intro ps
    simp [natsToInts, List.map_map, Function.comp]
  have hL : ∀ l : List Nat, (natsToInts l).length = l.length := by
    intro l
    simp [natsToInts]
  unfold compareVersions
  rw [parseVersion_render m1 ps1 hm1 h1, parseVersion_render m2 ps2 hm2 h2]
  simp only [Option.bind_eq_bind, Option.some_bind]
  rw [hA, hA, hL, hL]
  exact congrArg some (cmp_pad_eq_spec _ _)

/-- C1 witness: the component-wise theorem applied at the claim's three
concrete examples. -/
theorem compareVersions_componentwise_witness :
    compareVersions "v1.2.0" "1.2" = some 0 ∧
    compareVersions "2.0.0" "1.9.9" = some 1 ∧
    compareVersions "1.0.0" "1.0.1" = some (-1) := by
  refine ⟨?_, ?_, ?_⟩
  · have h := compareVersions_componentwise (some 'v') none [['1'], ['2'], ['0']]
      [['1'], ['2']] (Or.inr rfl) (Or.inl rfl) (by decide) (by decide)
    rw [show renderVersion (some 'v') [['1'], ['2'], ['0']] = "v1.2.0" by decide,
      show renderVersion none [['1'], ['2']] = "1.2" by decide] at h
    exact h.trans (by decide)
  · have h := compareVersions_componentwise none none [['2'], ['0'], ['0']]
      [['1'], ['9'], ['9']] (Or.inl rfl) (Or.inl rfl) (by decide) (by decide)
    rw [show renderVersion none [['2'], ['0'], ['0']] = "2.0.0" by decide,
      show renderVersion none [['1'], ['9'], ['9']] = "1.9.9" by decide] at h
    exact h.trans (by decide)
  · have h := compareVersions_componentwise none none [['1'], ['0'], ['0']]
      [['1'], ['0'], ['1']] (Or.inl rfl) (Or.inl rfl) (by decide) (by decide)
    rw [show renderVersion none [['1'], ['0'], ['0']] = "1.0.0" by decide,
      show renderVersion none [['1'], ['0'], ['1']] = "1.0.1" by decide] at h
    exact h.trans (by decide)

/-! ### Claim C6 -/

/-- C6 counterexample: `compareVersions` has no ParseError-style failure
for malformed input.  A component with trailing garbage after digits is
silently truncated by `std::stoi` (`"1a"` compares equal to `"1"`), and
the empty string is accepted as an empty component sequence that compares
equal to `"0"` instead of being rejected as invalid input. -/
theorem compareVersions_no_parse_error :
    compareVersions "1a" "1" = some 0 ∧ compareVersions "" "0" = some 0 := by decide

/-- C6 (amended): a component in which `std::stoi` finds no leading
digits (`std::invalid_argument`) or whose value lies outside the 32-bit
`int` range (`std::out_of_range`, e.g. `"9999999999"`) makes
`compareVersions` fail, and that failure is the uncaught conversion
exception propagating out of the function (modelled: result `none`,
whatever the other argument is), not a ParseError result value;
components with trailing non-numeric garbage are silently truncated to
their numeric value and the empty string is accepted as a valid empty
sequence. -/
theorem compareVersions_exception_propagates (v1 v2 : String)
    (h : parseVersion v1 = none ∨ parseVersion v2 = none) :
    compareVersions v1 v2 = none := by
  unfold compareVersions
  rcases h with h | h
  · simp [h]
  · cases hp : parseVersion v1 with
    | none => simp [hp]
    | some p1 => simp [hp, h]

/-- C6 witness: a component with no leading digits (`"x"`) and a
component beyond INT_MAX both crash the comparison for a well-formed
other argument. -/
theorem compareVersions_exception_propagates_witness :
    compareVersions "1.x" "1.0" = none ∧ compareVersions "1.9999999999" "1.0" = none :=
  ⟨compareVersions_exception_propagates "1.x" "1.0" (Or.inl (by decide)),
   compareVersions_exception_propagates "1.9999999999" "1.0" (Or.inl (by decide))⟩

/-! ### State and trace model of the update manager

The mutable members of `OTAUpdateManager` become a record; the registered
callbacks are modelled by whether they are set (`std::function` truthiness
in the guards `if (progressCallback)` etc.).  Externally visible effects
(callback invocations, update-target operations, HTTP activity, restart)
are collected in a trace of `Action`s; the network environment (WiFi
status, HTTP result, the per-iteration stream behaviour) is an explicit
input.  `Serial` logging, `esp_task_wdt_reset()` and `delay()` have no
effect on state or callbacks and are not modelled. -/

/-- Fields of `struct GitHubRelease` (header order). -/
structure GitHubRelease where
  version : String
  name : String
  body : String
  downloadUrl : String
  publishedAt : String
  fileSize : Nat
  prerelease : Bool
  isDraft : Bool
  deriving DecidableEq

/-- Mutable members of `OTAUpdateManager`; the three callback members are
modelled by their registration status. -/
structure OTAUpdateManager where
  githubRepo : String
  githubToken : String
  currentVersion : String
  updateInProgress : Bool
  totalSize : Nat
  downloadedSize : Nat
  progressCb : Bool
  statusCb : Bool
  completeCb : Bool
  deriving DecidableEq

/-- Model of the constructor `OTAUpdateManager(repo, version)`: counters
zeroed, no update in progress, no callbacks registered. -/
def mkManager (repo version : String) : OTAUpdateManager :=
  { githubRepo := repo, githubToken := "", currentVersion := version,
    updateInProgress := false, totalSize := 0, downloadedSize := 0,
    progressCb := false, statusCb := false, completeCb := false }

/-- Externally visible effects of the update manager. -/
inductive Action where
  | status (msg : String)
  | progress (current total : Nat)
  | complete (success : Bool) (msg : String)
  | httpGet (url : String)
  | updateBegin (size : Nat)
  | updateWrite (len : Nat)
  | updateEnd
  | updateAbort
  | restart
  deriving DecidableEq

/-- Percentage computed by `updateProgress`: `(current * 100) / total` in
the target's 32-bit `size_t` arithmetic — the product wraps modulo 2^32
before the floor division.  (The subsequent conversion of the quotient to
`int percentage` is value-preserving below 2^31, which covers every value
any theorem below mentions.) -/
def percentOf (current total : Nat) : Nat := current * 100 % 2 ^ 32 / total

/-- Model of `OTAUpdateManager::updateProgress`: the progress callback is
invoked (and the percentage computed) only inside `if (progressCallback)`.
The emitted action records the raw call arguments; the value passed to the
callback is `percentOf current total`. -/
def updateProgress (s : OTAUpdateManager) (current total : Nat) : List Action :=
  if s.progressCb then [Action.progress current total] else []

/-- Model of `OTAUpdateManager::updateStatus`: the status callback only
fires inside `if (statusCallback)` (the unconditional `Serial.println` is
not modelled). -/
def updateStatus (s : OTAUpdateManager) (msg : String) : List Action :=
  if s.statusCb then [Action.status msg] else []

/-- Model of `OTAUpdateManager::updateComplete`: guarded by
`if (completeCallback)`. -/
def updateComplete (s : OTAUpdateManager) (success : Bool) (msg : String) : List Action :=
  if s.completeCb then [Action.complete success msg] else []

/-- Model of `OTAUpdateManager::cancelUpdate`: outside an update it does
nothing at all; during one it aborts the target, clears the flag and fires
the status and completion callbacks itself, synchronously. -/
def cancelUpdate (s : OTAUpdateManager) : OTAUpdateManager × List Action :=
  if s.updateInProgress then
    ({ s with updateInProgress := false },
      Action.updateAbort ::
        (updateStatus s "Update cancelled" ++ updateComplete s false "Update cancelled by user"))
  else (s, [])

/-- One iteration's view of the HTTP stream in `downloadFirmware`:
`connected` is `http.connected()` at the loop head, `available` is
`stream->available()`, `bytesRead` is what `readBytes` would deliver
(capped by the model at the requested amount, as `readBytes` never returns
more than asked), and `writeOk` is whether `Update.write` returns the full
chunk length. -/
structure ChunkEvent where
  connected : Bool
  available : Nat
  bytesRead : Nat
  writeOk : Bool
  deriving DecidableEq

/-- Bytes moved in one loop iteration: `bytesToRead = min(available,
sizeof(buffer))` with a 1024-byte buffer, and `readBytes` returns at most
the requested amount, so the chunk written and counted is
`min e.bytesRead (min e.available 1024)`. -/
def readLen (e : ChunkEvent) : Nat := min e.bytesRead (min e.available 1024)

/-- State after one chunk is written: `downloadedSize += bytesRead`. -/
def bump (s : OTAUpdateManager) (e : ChunkEvent) : OTAUpdateManager :=
  { s with downloadedSize := s.downloadedSize + readLen e }

/-- The download loop of `downloadFirmware`, driven by one `ChunkEvent`
per iteration; an exhausted event list models a closed connection.  The
result flag is false exactly on the early `return false` of a failed
`Update.write`. -/
def dlLoop (s : OTAUpdateManager) : List ChunkEvent → Bool × OTAUpdateManager × List Action
  | [] => (true, s, [])
  | e :: rest =>
    if e.connected ∧ s.downloadedSize < s.totalSize then
      if 0 < e.available then
        if e.writeOk then
          ((dlLoop (bump s e) rest).1, (dlLoop (bump s e) rest).2.1,
            Action.updateWrite (readLen e) ::
              (updateProgress (bump s e) (bump s e).downloadedSize (bump s e).totalSize
                ++ (dlLoop (bump s e) rest).2.2))
        else
          (false, s, [Action.updateWrite (readLen e)] ++ updateStatus s "Write failed")
      else
        dlLoop s rest
    else
      (true, s, [])

/-- One-step unfolding of the download loop. -/
theorem dlLoop_cons (s : OTAUpdateManager) (e : ChunkEvent) (rest : List ChunkEvent) :
    dlLoop s (e :: rest) =
      if e.connected ∧ s.downloadedSize < s.totalSize then
        if 0 < e.available then
          if e.writeOk then
            ((dlLoop (bump s e) rest).1, (dlLoop (bump s e) rest).2.1,
              Action.updateWrite (readLen e) ::
                (updateProgress (bump s e) (bump s e).downloadedSize (bump s e).totalSize
                  ++ (dlLoop (bump s e) rest).2.2))
          else
            (false, s, [Action.updateWrite (readLen e)] ++ updateStatus s "Write failed")
        else
          dlLoop s rest
      else
        (true, s, []) := by
  rw [dlLoop.eq_def]

/-- Model of `OTAUpdateManager::downloadFirmware`: status, GET, reset the
byte counters, run the loop, then the post-loop size check. -/
def downloadFirmware (s : OTAUpdateManager) (url : String) (expectedSize : Nat)
    (httpOk : Bool) (events : List ChunkEvent) : Bool × OTAUpdateManager × List Action :=
  let a0 := updateStatus s "Downloading firmware..." ++ [Action.httpGet url]
  if !httpOk then (false, s, a0)
  else
    let s1 := { s with totalSize := expectedSize, downloadedSize := 0 }
    let r := dlLoop s1 events
    if !r.1 then (false, r.2.1, a0 ++ r.2.2)
    else if r.2.1.downloadedSize ≠ r.2.1.totalSize then
      (false, r.2.1, a0 ++ r.2.2 ++ updateStatus r.2.1 "Download incomplete")
    else (true, r.2.1, a0 ++ r.2.2)

/-- Environment consumed by one `downloadAndInstall` run: WiFi status, the
result of `Update.begin`, the HTTP GET result and stream, the result of
`Update.end`. -/
structure InstallEnv where
  wifiConnected : Bool
  beginOk : Bool
  httpOk : Bool
  events : List ChunkEvent
  endOk : Bool

/-- Model of `OTAUpdateManager::downloadAndInstall`.  On the fully
successful path `ESP.restart()` reboots the device, so the trailing
`updateInProgress = false; return success;` never executes there (the
returned flag is the value the function was about to return); on the
finalize-failure path the C++ function still returns `success == true`
while reporting completion failure. -/
def downloadAndInstall (s : OTAUpdateManager) (release : GitHubRelease)
    (env : InstallEnv) : Bool × OTAUpdateManager × List Action :=
  if s.updateInProgress then
    (false, s, updateStatus s "Update already in progress")
  else if !env.wifiConnected then
    (false, s, updateStatus s "WiFi not connected")
  else
    let s1 := { s with updateInProgress := true }
    let a1 := updateStatus s1 "Starting download..." ++ [Action.updateBegin release.fileSize]
    if !env.beginOk then
      (false, { s1 with updateInProgress := false },
        a1 ++ updateStatus s1 "Failed to initialize update")
    else
      let r := downloadFirmware s1 release.downloadUrl release.fileSize env.httpOk env.events
      let s2 := r.2.1
      let pre := a1 ++ r.2.2
      if r.1 then
        if env.endOk then
          (true, s2,
            pre ++ [Action.updateEnd] ++ updateStatus s2 "Update completed successfully"
              ++ updateComplete s2 true "Update installed. Restarting..." ++ [Action.restart])
        else
          (true, { s2 with updateInProgress := false },
            pre ++ [Action.updateEnd] ++ updateStatus s2 "Update failed to finalize"
              ++ updateComplete s2 false "Update finalization failed")
      else
        (false, { s2 with updateInProgress := false },
          pre ++ [Action.updateAbort] ++ updateStatus s2 "Download failed"
            ++ updateComplete s2 false "Download failed")

/-! ### Release parsing and the GitHub request -/

/-- One entry of the release's `assets[]` array. -/
structure Asset where
  name : String
  browser_download_url : String
  size : Nat

/-- The release JSON document as ArduinoJson would deliver it; the JSON
text parsing itself (`deserializeJson`) is external library code, modelled
by handing `parseLatestRelease` an `Option ReleaseJson`. -/
structure ReleaseJson where
  tag_name : String
  name : String
  body : String
  published_at : String
  prerelease : Bool
  draft : Bool
  assets : List Asset

/-- Prefix test on character lists (helper for substring search). -/
def startsWithChars : List Char → List Char → Bool
  | _, [] => true
  | [], _ :: _ => false
  | a :: as, b :: bs => a = b && startsWithChars as bs

/-- Substring test, the semantics of `std::string::find(pat) != npos`. -/
def containsChars (hay pat : List Char) : Bool :=
  startsWithChars hay pat ||
    match hay with
    | [] => false
    | _ :: rest => containsChars rest pat

/-- Substring test on strings. -/
def strContains (hay pat : String) : Bool := containsChars hay.data pat.data

/-- The asset scan of `parseLatestRelease`: first asset whose name
contains ".bin" or "firmware" wins (`break`); its URL and size are taken
as found, with no check on the size.  With no match the release's
`downloadUrl` keeps its default empty value. -/
def findFirmwareAsset : List Asset → String × Nat
  | [] => ("", 0)
  | a :: rest =>
    if strContains a.name ".bin" || strContains a.name "firmware" then
      (a.browser_download_url, a.size)
    else findFirmwareAsset rest

/-- Model of `OTAUpdateManager::parseLatestRelease`: fails on malformed
JSON (`none` input) or when no firmware asset was found
(`release.downloadUrl.empty()`); otherwise fills the release from the
document fields and the selected asset. -/
def parseLatestRelease (json : Option ReleaseJson) : Option GitHubRelease :=
  match json with
  | none => none
  | some j =>
    let asset := findFirmwareAsset j.assets
    if asset.1 = "" then none
    else some { version := j.tag_name, name := j.name, body := j.body,
                downloadUrl := asset.1, publishedAt := j.published_at,
                fileSize := asset.2, prerelease := j.prerelease, isDraft := j.draft }

/-- The GitHub API base URL constant. -/
def GITHUB_API_BASE : String := "https://api.github.com"

/-- Endpoint produced by `snprintf(endpoint, 256, "/repos/%s/releases/latest",
repo)`; repository identifiers are far below the buffer bound, so
truncation is not modelled. -/
def releasesEndpoint (repo : String) : String :=
  "/repos/" ++ repo ++ "/releases/latest"

/-- An HTTP request as configured on the client. -/
structure HttpRequest where
  url : String
  headers : List (String × String)

/-- Request constructed by `OTAUpdateManager::makeGitHubRequest`.  The
code calls `http.begin(secureClient, GITHUB_API_BASE)` with the bare base
URL; the local `fullUrl = GITHUB_API_BASE + endpoint` is computed but
never handed to the HTTP client.  The model returns both the request as
actually issued and the computed-but-unused `fullUrl`. -/
def makeGitHubRequest (s : OTAUpdateManager) (endpoint : String) :
    HttpRequest × String :=
  let fullUrl := GITHUB_API_BASE ++ endpoint
  ({ url := GITHUB_API_BASE,
     headers := [("User-Agent", "ESP32-Trimix-Analyzer"),
                 ("Accept", "application/vnd.github.v3+json")]
       ++ (if s.githubToken = "" then [] else [("Authorization", "token " ++ s.githubToken)]) },
   fullUrl)

/-- Success test of `makeGitHubRequest`: only `HTTP_CODE_OK` (200) counts
as success; everything else takes the failure branch. -/
def makeGitHubRequestOk (httpCode : Int) : Bool := httpCode = 200

/-- Environment consumed by one `checkForUpdates` run. -/
structure CheckEnv where
  wifiConnected : Bool
  requestOk : Bool
  responseJson : Option ReleaseJson

/-- Model of `OTAUpdateManager::checkForUpdates`: WiFi guard, GitHub
request, release parse; no member of the manager is mutated, and the
parsed release is handed back to the caller (the C++ out-parameter). -/
def checkForUpdates (s : OTAUpdateManager) (env : CheckEnv) :
    Bool × Option GitHubRelease × List Action :=
  if !env.wifiConnected then (false, none, updateStatus s "WiFi not connected")
  else
    let a1 := updateStatus s "Checking for updates..."
      ++ [Action.httpGet (makeGitHubRequest s (releasesEndpoint s.githubRepo)).1.url]
    if !env.requestOk then (false, none, a1 ++ updateStatus s "Failed to connect to GitHub")
    else
      match parseLatestRelease env.responseJson with
      | none => (false, none, a1 ++ updateStatus s "Failed to parse release data")
      | some rel => (true, some rel, a1 ++ updateStatus s "Update check completed")

/-! ### Invariants of the download loop -/

theorem bump_downloadedSize (s : OTAUpdateManager) (e : ChunkEvent) :
    (bump s e).downloadedSize = s.downloadedSize + readLen e := rfl

theorem dlLoop_state (s : OTAUpdateManager) (ev : List ChunkEvent) :
    ∃ d, s.downloadedSize ≤ d ∧ (dlLoop s ev).2.1 = { s with downloadedSize := d } := by
  induction ev generalizing s with
  | nil => exact ⟨s.downloadedSize, le_refl _, rfl⟩
  | cons e rest ih =>
    rw [dlLoop_cons]
    by_cases hg : e.connected ∧ s.downloadedSize < s.totalSize
    · rw [if_pos hg]
      by_cases ha : 0 < e.available
      · rw [if_pos ha]
        by_cases hw : e.writeOk = true
        · rw [if_pos hw]
          obtain ⟨d, hd, hst⟩ := ih (bump s e)
          refine ⟨d, ?_, hst⟩
          calc s.downloadedSize ≤ (bump s e).downloadedSize := Nat.le_add_right _ _
            _ ≤ d := hd
        · rw [if_neg hw]
          exact ⟨s.downloadedSize, le_refl _, rfl⟩
      · rw [if_neg ha]
        exact ih s
    · rw [if_neg hg]
      exact ⟨s.downloadedSize, le_refl _, rfl⟩

theorem dlLoop_totalSize (s : OTAUpdateManager) (ev : List ChunkEvent) :
    (dlLoop s ev).2.1.totalSize = s.totalSize := by
  obtain ⟨d, _, hst⟩ := dlLoop_state s ev
  rw [hst]

theorem dlLoop_downloaded_ge (s : OTAUpdateManager) (ev : List ChunkEvent) :
    s.downloadedSize ≤ (dlLoop s ev).2.1.downloadedSize := by
  obtain ⟨d, hd, hst⟩ := dlLoop_state s ev
  rw [hst]
  exact hd

theorem dlLoop_delivery_bound (s : OTAUpdateManager) (ev : List ChunkEvent) :
    (dlLoop s ev).2.1.downloadedSize ≤ s.downloadedSize + (ev.map readLen).sum := by
  induction ev generalizing s with
  | nil => simp [dlLoop]
  | cons e rest ih =>
    rw [dlLoop_cons]
    by_cases hg : e.connected ∧ s.downloadedSize < s.totalSize
    · rw [if_pos hg]
      by_cases ha : 0 < e.available
      · rw [if_pos ha]
        by_cases hw : e.writeOk = true
        · rw [if_pos hw]
          have h := ih (bump s e)
          rw [bump_downloadedSize] at h
          simp only [List.map_cons, List.sum_cons]
          omega
        · rw [if_neg hw]
          simp only [List.map_cons, List.sum_cons]
          omega
      · rw [if_neg ha]
        have h := ih s
        simp only [List.map_cons, List.sum_cons]
        omega
    · rw [if_neg hg]
      simp only [List.map_cons, List.sum_cons]
      omega

theorem dlLoop_flag_true (s : OTAUpdateManager) (ev : List ChunkEvent)
    (h : ∀ e ∈ ev, e.writeOk = true) : (dlLoop s ev).1 = true := by
  induction ev generalizing s with
  | nil => rfl
  | cons e rest ih =>
    rw [dlLoop_cons]
    by_cases hg : e.connected ∧ s.downloadedSize < s.totalSize
    · rw [if_pos hg]
      by_cases ha : 0 < e.available
      · rw [if_pos ha, if_pos (h e (by simp))]
        exact ih (bump s e) (fun x hx => h x (by simp [hx]))
      · rw [if_neg ha]
        exact ih s (fun x hx => h x (by simp [hx]))
    · rw [if_neg hg]

theorem dlLoop_progress_mem (s : OTAUpdateManager) (ev : List ChunkEvent) {x t : Nat}
    (hmem : Action.progress x t ∈ (dlLoop s ev).2.2) :
    t = s.totalSize ∧ 0 < s.totalSize ∧ x ≤ (dlLoop s ev).2.1.downloadedSize := by
  induction ev generalizing s with
  | nil => simp [dlLoop] at hmem
  | cons e rest ih =>
    rw [dlLoop_cons] at hmem ⊢
    by_cases hg : e.connected ∧ s.downloadedSize < s.totalSize
    · rw [if_pos hg] at hmem ⊢
      by_cases ha : 0 < e.available
      · rw [if_pos ha] at hmem ⊢
        by_cases hw : e.writeOk = true
        · rw [if_pos hw] at hmem ⊢
          simp only [List.mem_cons, List.mem_append] at hmem
          rcases hmem with hmem | hmem | hmem
          · exact absurd hmem (by simp)
          · unfold updateProgress at hmem
            by_cases hp : (bump s e).progressCb = true
            · rw [if_pos hp] at hmem
              simp only [List.mem_singleton, Action.progress.injEq] at hmem
              obtain ⟨hx, ht⟩ := hmem
              subst hx
              subst ht
              refine ⟨rfl, by omega, ?_⟩
              exact dlLoop_downloaded_ge (bump s e) rest
            · rw [if_neg hp] at hmem
              simp at hmem
          · obtain ⟨h1, h2, h3⟩ := ih (bump s e) hmem
            exact ⟨h1, by omega, h3⟩
        · rw [if_neg hw] at hmem ⊢
          simp only [List.mem_append, List.mem_singleton] at hmem
          rcases hmem with hmem | hmem
          · exact absurd hmem (by simp)
          · unfold updateStatus at hmem
            by_cases hs : s.statusCb = true
            · rw [if_pos hs] at hmem
              simp at hmem
            · rw [if_neg hs] at hmem
              simp at hmem
      · rw [if_neg ha] at hmem ⊢
        exact ih s hmem
    · rw [if_neg hg] at hmem
      exact absurd hmem (by simp)

/-! ### Helpers for reasoning about emitted callback actions -/

theorem mem_updateStatus {s : OTAUpdateManager} {m : String} {a : Action}
    (h : a ∈ updateStatus s m) : a = Action.status m := by
  unfold updateStatus at h
  by_cases hs : s.statusCb = true
  · rw [if_pos hs] at h
    simpa using h
  · rw [if_neg hs] at h
    simp at h

theorem mem_updateProgress {s : OTAUpdateManager} {x t : Nat} {a : Action}
    (h : a ∈ updateProgress s x t) : a = Action.progress x t := by
  unfold updateProgress at h
  by_cases hp : s.progressCb = true
  · rw [if_pos hp] at h
    simpa using h
  · rw [if_neg hp] at h
    simp at h

theorem mem_updateComplete {s : OTAUpdateManager} {ok : Bool} {m : String} {a : Action}
    (h : a ∈ updateComplete s ok m) : a = Action.complete ok m := by
  unfold updateComplete at h
  by_cases hc : s.completeCb = true
  · rw [if_pos hc] at h
    simpa using h
  · rw [if_neg hc] at h
    simp at h

theorem updateStatus_fires {s : OTAUpdateManager} (hs : s.statusCb = true) (m : String) :
    Action.status m ∈ updateStatus s m := by
  unfold updateStatus
  rw [if_pos hs]
  simp

theorem updateComplete_fires {s : OTAUpdateManager} (hc : s.completeCb = true)
    (ok : Bool) (m : String) : Action.complete ok m ∈ updateComplete s ok m := by
  unfold updateComplete
  rw [if_pos hc]
  simp

/-- Run equation for `downloadFirmware` with a successful GET, phrased
against an explicitly destructured loop result. -/
theorem downloadFirmware_run (s : OTAUpdateManager) (url : String) (size : Nat)
    (events : List ChunkEvent) (flag : Bool) (st : OTAUpdateManager) (acts : List Action)
    (hr : dlLoop { s with totalSize := size, downloadedSize := 0 } events = (flag, st, acts)) :
    downloadFirmware s url size true events
      = (if !flag then
           (false, st, updateStatus s "Downloading firmware..." ++ [Action.httpGet url] ++ acts)
         else if st.downloadedSize ≠ st.totalSize then
           (false, st, updateStatus s "Downloading firmware..." ++ [Action.httpGet url] ++ acts
              ++ updateStatus st "Download incomplete")
         else
           (true, st, updateStatus s "Downloading firmware..." ++ [Action.httpGet url] ++ acts)) := by
  simp only [downloadFirmware]
  rw [hr]
  simp

/-- Run equation for `downloadAndInstall` past the two entry guards,
phrased against an explicitly destructured `downloadFirmware` result. -/
theorem downloadAndInstall_run (s : OTAUpdateManager) (release : GitHubRelease)
    (env : InstallEnv) (flag : Bool) (st : OTAUpdateManager) (acts : List Action)
    (hidle : s.updateInProgress = false) (hwifi : env.wifiConnected = true)
    (hbegin : env.beginOk = true)
    (hr : downloadFirmware { s with updateInProgress := true } release.downloadUrl
            release.fileSize env.httpOk env.events = (flag, st, acts)) :
    downloadAndInstall s release env
      = (if flag then
           if env.endOk then
             (true, st,
               updateStatus { s with updateInProgress := true } "Starting download..."
                 ++ [Action.updateBegin release.fileSize] ++ acts
                 ++ [Action.updateEnd] ++ updateStatus st "Update completed successfully"
                 ++ updateComplete st true "Update installed. Restarting..." ++ [Action.restart])
           else
             (true, { st with updateInProgress := false },
               updateStatus { s with updateInProgress := true } "Starting download..."
                 ++ [Action.updateBegin release.fileSize] ++ acts
                 ++ [Action.updateEnd] ++ updateStatus st "Update failed to finalize"
                 ++ updateComplete st false "Update finalization failed")
         else
           (false, { st with updateInProgress := false },
             updateStatus { s with updateInProgress := true } "Starting download..."
               ++ [Action.updateBegin release.fileSize] ++ acts
               ++ [Action.updateAbort] ++ updateStatus st "Download failed"
               ++ updateComplete st false "Download failed")) := by
  simp only [downloadAndInstall]
  rw [hr]
  simp [hidle, hwifi, hbegin]

/-! ### Concrete fixtures used by witnesses -/

/-- A sample release (firmware.bin asset of 2048 bytes). -/
def demoRelease : GitHubRelease :=
  { version := "v1.3.0", name := "r", body := "", downloadUrl := "https://x/firmware.bin",
    publishedAt := "", fileSize := 2048, prerelease := false, isDraft := false }

/-- A manager with all three callbacks registered. -/
def demoManager : OTAUpdateManager :=
  { mkManager "magnus188/trimix-analysator" "1.2.0" with
      progressCb := true, statusCb := true, completeCb := true }

/-- A benign environment: WiFi up, target operations succeed, stream
delivers two full 1024-byte chunks. -/
def demoEnv : InstallEnv :=
  { wifiConnected := true, beginOk := true, httpOk := true,
    events := [⟨true, 1024, 1024, true⟩, ⟨true, 1024, 1024, true⟩], endOk := true }

/-! ### Claim C2 -/

/-- C2 (code bug): `makeGitHubRequest` assembles the correct release-list
URL into `fullUrl` but never passes it to the HTTP client — `http.begin`
receives the bare `GITHUB_API_BASE`, so the GET is issued against
`https://api.github.com` and not the endpoint.  The headers (fixed
user-agent, JSON accept, token when configured) and the failure on any
non-200 status are as claimed. -/
theorem makeGitHubRequest_targets_base_url :
    (makeGitHubRequest (mkManager "magnus188/trimix-analysator" "1.2.0")
        (releasesEndpoint "magnus188/trimix-analysator")).1.url = "https://api.github.com"
  ∧ (makeGitHubRequest (mkManager "magnus188/trimix-analysator" "1.2.0")
        (releasesEndpoint "magnus188/trimix-analysator")).2
      = "https://api.github.com/repos/magnus188/trimix-analysator/releases/latest"
  ∧ "https://api.github.com"
      ≠ "https://api.github.com/repos/magnus188/trimix-analysator/releases/latest"
  ∧ (makeGitHubRequest (mkManager "magnus188/trimix-analysator" "1.2.0")
        (releasesEndpoint "magnus188/trimix-analysator")).1.headers
      = [("User-Agent", "ESP32-Trimix-Analyzer"),
         ("Accept", "application/vnd.github.v3+json")]
  ∧ (makeGitHubRequest
        { mkManager "magnus188/trimix-analysator" "1.2.0" with githubToken := "tok" }
        (releasesEndpoint "magnus188/trimix-analysator")).1.headers
      = [("User-Agent", "ESP32-Trimix-Analyzer"),
         ("Accept", "application/vnd.github.v3+json"),
         ("Authorization", "token tok")]
  ∧ makeGitHubRequestOk 404 = false ∧ makeGitHubRequestOk 500 = false
  ∧ makeGitHubRequestOk 200 = true := by decide

/-! ### Claim C3 -/

/-- C3: while an update is in progress, `downloadAndInstall` returns false
immediately with the manager state untouched (`downloadedSize`,
`totalSize` and `updateInProgress` included), fires no progress or
completion callback, and never reaches `Update.begin`. -/
theorem downloadAndInstall_rejected_when_busy (s : OTAUpdateManager)
    (release : GitHubRelease) (env : InstallEnv)
    (h : s.updateInProgress = true) :
    (downloadAndInstall s release env).1 = false
  ∧ (downloadAndInstall s release env).2.1 = s
  ∧ ∀ a ∈ (downloadAndInstall s release env).2.2,
      (∀ x t, a ≠ Action.progress x t) ∧ (∀ ok m, a ≠ Action.complete ok m)
      ∧ (∀ n, a ≠ Action.updateBegin n) := by
  unfold downloadAndInstall
  rw [if_pos h]
  refine ⟨rfl, rfl, ?_⟩
  intro a ha
  unfold updateStatus at ha
  by_cases hs : s.statusCb = true
  · rw [if_pos hs] at ha
    simp only [List.mem_singleton] at ha
    subst ha
    exact ⟨fun x t => by simp, fun ok m => by simp, fun n => by simp⟩
  · rw [if_neg hs] at ha
    simp at ha

/-- C3 witness: the guard theorem applied to a busy manager. -/
theorem downloadAndInstall_rejected_when_busy_witness :
    ({ demoManager with updateInProgress := true } : OTAUpdateManager).updateInProgress = true
  ∧ (downloadAndInstall { demoManager with updateInProgress := true } demoRelease demoEnv).1
      = false
  ∧ (downloadAndInstall { demoManager with updateInProgress := true } demoRelease demoEnv).2.1
      = { demoManager with updateInProgress := true } :=
  ⟨rfl,
   (downloadAndInstall_rejected_when_busy { demoManager with updateInProgress := true }
     demoRelease demoEnv rfl).1,
   (downloadAndInstall_rejected_when_busy { demoManager with updateInProgress := true }
     demoRelease demoEnv rfl).2.1⟩

/-! ### Claim C4 -/

theorem progress_not_in_updateStatus {s : OTAUpdateManager} {m : String} {x t : Nat}
    (h : Action.progress x t ∈ updateStatus s m) : False := by
  have h2 := mem_updateStatus h
  simp at h2

theorem progress_not_in_updateComplete {s : OTAUpdateManager} {ok : Bool} {m : String}
    {x t : Nat} (h : Action.progress x t ∈ updateComplete s ok m) : False := by
  have h2 := mem_updateComplete h
  simp at h2

theorem percentOf_le_100 {x t : Nat} (h : x ≤ t) : percentOf x t ≤ 100 := by
  unfold percentOf
  rcases Nat.eq_zero_or_pos t with ht | ht
  · subst ht
    simp
  · calc x * 100 % 2 ^ 32 / t ≤ x * 100 / t := Nat.div_le_div_right (Nat.mod_le _ _)
    _ ≤ t * 100 / t := Nat.div_le_div_right (Nat.mul_le_mul_right _ h)
    _ = 100 := Nat.mul_div_cancel_left 100 ht

/-- C4 counterexample: the download loop does not clamp a chunk read to
the bytes remaining, so a stream that delivers more than the expected
total pushes `downloadedSize` past `totalSize` and hands the progress
callback a percentage above 100: with expected size 100 and one full
1024-byte chunk, `downloadedSize` ends at 1024 and the callback receives
floor(1024*100/100) = 1024. -/
theorem download_overshoot_counterexample :
    (downloadFirmware demoManager "u" 100 true [⟨true, 1024, 1024, true⟩]).2.1.downloadedSize
        = 1024
  ∧ (downloadFirmware demoManager "u" 100 true [⟨true, 1024, 1024, true⟩]).2.1.totalSize = 100
  ∧ Action.progress 1024 100
      ∈ (downloadFirmware demoManager "u" 100 true [⟨true, 1024, 1024, true⟩]).2.2
  ∧ percentOf 1024 100 = 1024 := by decide

/-- C4 (amended: the no-overshoot invariant holds only for streams that
deliver at most the expected total, because the loop does not clamp reads
to the remaining count): whenever the chunks of a download sum to at most
the expected size, `downloadedSize` never exceeds `totalSize` and every
value handed to the progress callback lies in 0..100. -/
theorem downloadFirmware_progress_in_range (s : OTAUpdateManager) (url : String)
    (size : Nat) (events : List ChunkEvent)
    (hdeliver : (events.map readLen).sum ≤ size) :
    (downloadFirmware s url size true events).2.1.downloadedSize
        ≤ (downloadFirmware s url size true events).2.1.totalSize
  ∧ ∀ x t, Action.progress x t ∈ (downloadFirmware s url size true events).2.2 →
      x ≤ t ∧ percentOf x t ≤ 100 := by
  rcases hr : dlLoop { s with totalSize := size, downloadedSize := 0 } events
    with ⟨flag, st, acts⟩
  have hrun := downloadFirmware_run s url size events flag st acts hr
  have hb := dlLoop_delivery_bound { s with totalSize := size, downloadedSize := 0 } events
  have ht := dlLoop_totalSize { s with totalSize := size, downloadedSize := 0 } events
  rw [hr] at hb ht
  have ht' : st.totalSize = size := ht
  have hdl : st.downloadedSize ≤ size := by
    have hb' : st.downloadedSize ≤ 0 + (events.map readLen).sum := hb
    omega
  have hprog : ∀ x t : Nat, Action.progress x t ∈ acts → x ≤ t ∧ percentOf x t ≤ 100 := by
    intro x t hmem
    have h := dlLoop_progress_mem { s with totalSize := size, downloadedSize := 0 } events
      (x := x) (t := t) (by rw [hr]; exact hmem)
    rw [hr] at h
    obtain ⟨h1, _, h3⟩ := h
    have h1' : t = size := h1
    have h3' : x ≤ st.downloadedSize := h3
    have hx : x ≤ t := by omega
    exact ⟨hx, percentOf_le_100 hx⟩
  constructor
  · rw [hrun]
    split_ifs <;> exact le_of_le_of_eq hdl ht'.symm
  · intro x t hmem
    rw [hrun] at hmem
    have hacts : Action.progress x t ∈ acts := by
      split_ifs at hmem
      · simp only [List.mem_append, List.mem_singleton] at hmem
        rcases hmem with (hmem | hmem) | hmem
        · exact (progress_not_in_updateStatus hmem).elim
        · exact absurd hmem (by simp)
        · exact hmem
      · simp only [List.mem_append, List.mem_singleton] at hmem
        rcases hmem with ((hmem | hmem) | hmem) | hmem
        · exact (progress_not_in_updateStatus hmem).elim
        · exact absurd hmem (by simp)
        · exact hmem
        · exact (progress_not_in_updateStatus hmem).elim
      · simp only [List.mem_append, List.mem_singleton] at hmem
        rcases hmem with (hmem | hmem) | hmem
        · exact (progress_not_in_updateStatus hmem).elim
        · exact absurd hmem (by simp)
        · exact hmem
    exact hprog x t hacts

/-- C4 witness: the in-range theorem applied to a stream delivering
exactly the expected 2048 bytes in two chunks. -/
theorem downloadFirmware_progress_in_range_witness :
    ((demoEnv.events.map readLen).sum ≤ 2048)
  ∧ (downloadFirmware demoManager "u" 2048 true demoEnv.events).2.1.downloadedSize
      ≤ (downloadFirmware demoManager "u" 2048 true demoEnv.events).2.1.totalSize :=
  ⟨by decide,
   (downloadFirmware_progress_in_range demoManager "u" 2048 demoEnv.events (by decide)).1⟩

/-! ### Claim C9 -/

theorem progress_mem_updateStatus_iff {s : OTAUpdateManager} {m : String} {x t : Nat} :
    (Action.progress x t ∈ updateStatus s m) ↔ False :=
  ⟨progress_not_in_updateStatus, False.elim⟩

theorem progress_mem_updateComplete_iff {s : OTAUpdateManager} {ok : Bool} {m : String}
    {x t : Nat} : (Action.progress x t ∈ updateComplete s ok m) ↔ False :=
  ⟨progress_not_in_updateComplete, False.elim⟩

/-- A release document whose only asset is a zero-byte firmware.bin. -/
def zeroSizeJson : ReleaseJson :=
  { tag_name := "v1.3.0", name := "Release", body := "", published_at := "",
    prerelease := false, draft := false,
    assets := [{ name := "firmware.bin", browser_download_url := "https://x/fw.bin",
                 size := 0 }] }

/-- The release `parseLatestRelease` produces from `zeroSizeJson`. -/
def zeroSizeRelease : GitHubRelease :=
  { version := "v1.3.0", name := "Release", body := "", downloadUrl := "https://x/fw.bin",
    publishedAt := "", fileSize := 0, prerelease := false, isDraft := false }

/-- C9 counterexample: release parsing does not reject a zero-size
firmware asset.  The asset scan takes the first ".bin"/"firmware" name
match with no size check, and the only parse failure is an empty download
URL, so a release whose only asset is a zero-byte firmware.bin parses
successfully with fileSize = 0 (and `UpdateSettingsScreen::downloadUpdate`
even hands `downloadAndInstall` a descriptor with `fileSize = 0`
directly). -/
theorem parseLatestRelease_accepts_zero_size :
    parseLatestRelease (some zeroSizeJson) = some zeroSizeRelease
      ∧ zeroSizeRelease.fileSize = 0 := by decide

/-- Every progress invocation inside `downloadFirmware` carries a
positive total: `updateProgress` is called only from the loop body, whose
guard requires `downloadedSize < totalSize`. -/
theorem downloadFirmware_progress_total_pos (s : OTAUpdateManager) (url : String)
    (size : Nat) (ok : Bool) (events : List ChunkEvent) {x t : Nat}
    (hmem : Action.progress x t ∈ (downloadFirmware s url size ok events).2.2) : 0 < t := by
  cases ok with
  | false =>
    simp only [downloadFirmware] at hmem
    simp [progress_mem_updateStatus_iff] at hmem
  | true =>
    rcases hr : dlLoop { s with totalSize := size, downloadedSize := 0 } events
      with ⟨flag, st, acts⟩
    have hrun := downloadFirmware_run s url size events flag st acts hr
    rw [hrun] at hmem
    have hacts : Action.progress x t ∈ acts := by
      split_ifs at hmem <;>
        simp [progress_mem_updateStatus_iff, List.mem_append] at hmem <;>
        exact hmem
    have h := dlLoop_progress_mem { s with totalSize := size, downloadedSize := 0 } events
      (x := x) (t := t) (by rw [hr]; exact hacts)
    have h1 : t = size := h.1
    have h2 : 0 < size := h.2.1
    omega

/-- C9 (amended: nothing upstream rejects a zero `fileSize` — the parser
accepts zero-size assets and the settings screen passes `fileSize = 0`
straight to `downloadAndInstall` — yet the progress computation still
never divides by zero, because `updateProgress` is invoked only from the
download loop, whose guard `downloadedSize < totalSize` forces
`totalSize > 0` at every invocation; with `totalSize = 0` the loop body
never runs): every progress value emitted during any `downloadAndInstall`
run carries a positive total. -/
theorem downloadAndInstall_progress_total_pos (s : OTAUpdateManager)
    (release : GitHubRelease) (env : InstallEnv) {x t : Nat}
    (hmem : Action.progress x t ∈ (downloadAndInstall s release env).2.2) : 0 < t := by
  have hsrc : Action.progress x t ∈ (downloadFirmware { s with updateInProgress := true }
      release.downloadUrl release.fileSize env.httpOk env.events).2.2 := by
    simp only [downloadAndInstall] at hmem
    split_ifs at hmem <;>
      simp [progress_mem_updateStatus_iff, progress_mem_updateComplete_iff,
        List.mem_append] at hmem <;>
      exact hmem
  exact downloadFirmware_progress_total_pos _ _ _ _ _ hsrc

/-- C9 witness: a complete demo run that emits a progress action, whose
total is positive by the theorem. -/
theorem downloadAndInstall_progress_total_pos_witness :
    Action.progress 1024 2048 ∈ (downloadAndInstall demoManager demoRelease demoEnv).2.2
  ∧ 0 < (2048 : Nat) :=
  ⟨by decide,
   downloadAndInstall_progress_total_pos demoManager demoRelease demoEnv
     (x := 1024) (t := 2048) (by decide)⟩

/-! ### Claim C5 -/

theorem updateStatus_mem_iff {s : OTAUpdateManager} {m : String} {a : Action} :
    a ∈ updateStatus s m ↔ a = Action.status m ∧ s.statusCb = true := by
  unfold updateStatus
  by_cases hs : s.statusCb = true <;> simp [hs]

theorem updateProgress_mem_iff {s : OTAUpdateManager} {x t : Nat} {a : Action} :
    a ∈ updateProgress s x t ↔ a = Action.progress x t ∧ s.progressCb = true := by
  unfold updateProgress
  by_cases hp : s.progressCb = true <;> simp [hp]

theorem updateComplete_mem_iff {s : OTAUpdateManager} {ok : Bool} {m : String} {a : Action} :
    a ∈ updateComplete s ok m ↔ a = Action.complete ok m ∧ s.completeCb = true := by
  unfold updateComplete
  by_cases hc : s.completeCb = true <;> simp [hc]

/-- The download loop never touches the update-target lifecycle: it only
emits writes, progress reports and the write-failure status. -/
theorem dlLoop_no_updateEnd (s : OTAUpdateManager) (ev : List ChunkEvent) :
    Action.updateEnd ∉ (dlLoop s ev).2.2 := by
  induction ev generalizing s with
  | nil => simp [dlLoop]
  | cons e rest ih =>
    rw [dlLoop_cons]
    by_cases hg : e.connected ∧ s.downloadedSize < s.totalSize
    · rw [if_pos hg]
      by_cases ha : 0 < e.available
      · rw [if_pos ha]
        by_cases hw : e.writeOk = true
        · rw [if_pos hw]
          simp [List.mem_append, updateProgress_mem_iff, ih (bump s e)]
        · rw [if_neg hw]
          simp [List.mem_append, updateStatus_mem_iff]
      · rw [if_neg ha]
        exact ih s
    · rw [if_neg hg]
      simp

/-- C5: when the stream closes after delivering fewer bytes than the
expected size (with no write error), the loop exits, the run fails as an
incomplete download, the update target is aborted, the completion
callback fires with success=false, the target's end() is never invoked,
and the in-progress guard is cleared. -/
theorem downloadAndInstall_incomplete_aborts (s : OTAUpdateManager)
    (release : GitHubRelease) (env : InstallEnv)
    (hidle : s.updateInProgress = false) (hwifi : env.wifiConnected = true)
    (hbegin : env.beginOk = true) (hhttp : env.httpOk = true)
    (hwrites : ∀ e ∈ env.events, e.writeOk = true)
    (hshort : (env.events.map readLen).sum < release.fileSize)
    (hcb : s.completeCb = true) (hst : s.statusCb = true) :
    (downloadAndInstall s release env).1 = false
  ∧ Action.updateAbort ∈ (downloadAndInstall s release env).2.2
  ∧ Action.complete false "Download failed" ∈ (downloadAndInstall s release env).2.2
  ∧ Action.status "Download incomplete" ∈ (downloadAndInstall s release env).2.2
  ∧ Action.updateEnd ∉ (downloadAndInstall s release env).2.2
  ∧ (downloadAndInstall s release env).2.1.updateInProgress = false := by
  rcases hr : dlLoop
      { s with updateInProgress := true, totalSize := release.fileSize, downloadedSize := 0 }
      env.events with ⟨flag, st, acts⟩
  have hflag : flag = true := by
    have h := dlLoop_flag_true
      { s with updateInProgress := true, totalSize := release.fileSize, downloadedSize := 0 }
      env.events hwrites
    rw [hr] at h
    exact h
  subst hflag
  have hstshape := dlLoop_state
      { s with updateInProgress := true, totalSize := release.fileSize, downloadedSize := 0 }
      env.events
  obtain ⟨d, _, hsteq⟩ := hstshape
  rw [hr] at hsteq
  have hstEq :
      st = { s with updateInProgress := true, totalSize := release.fileSize, downloadedSize := d } :=
    hsteq
  have hstTotal : st.totalSize = release.fileSize := by rw [hstEq]
  have hstCb : st.completeCb = s.completeCb := by rw [hstEq]
  have hstSt : st.statusCb = s.statusCb := by rw [hstEq]
  have hbound := dlLoop_delivery_bound
      { s with updateInProgress := true, totalSize := release.fileSize, downloadedSize := 0 }
      env.events
  rw [hr] at hbound
  have hlt : st.downloadedSize < release.fileSize := by
    have hb : st.downloadedSize ≤ 0 + (env.events.map readLen).sum := hbound
    omega
  have hnoend : Action.updateEnd ∉ acts := by
    have h := dlLoop_no_updateEnd
      { s with updateInProgress := true, totalSize := release.fileSize, downloadedSize := 0 }
      env.events
    rw [hr] at h
    exact h
  have hne : st.downloadedSize ≠ st.totalSize := by
    rw [hstTotal]
    omega
  have hdf : downloadFirmware { s with updateInProgress := true } release.downloadUrl
      release.fileSize env.httpOk env.events
      = (false, st,
          updateStatus { s with updateInProgress := true } "Downloading firmware..."
            ++ [Action.httpGet release.downloadUrl] ++ acts
            ++ updateStatus st "Download incomplete") := by
    rw [hhttp]
    rw [downloadFirmware_run { s with updateInProgress := true } release.downloadUrl
      release.fileSize env.events true st acts hr]
    rw [if_neg (by simp), if_pos hne]
  have hrun := downloadAndInstall_run s release env false st _ hidle hwifi hbegin hdf
  rw [hrun]
  rw [if_neg (by simp)]
  refine ⟨rfl, ?_, ?_, ?_, ?_, rfl⟩
  · exact List.mem_append.mpr (Or.inl (List.mem_append.mpr (Or.inl
      (List.mem_append.mpr (Or.inr (by simp))))))
  · exact List.mem_append.mpr (Or.inr (updateComplete_fires (by rw [hstCb]; exact hcb) _ _))
  · refine List.mem_append.mpr (Or.inl (List.mem_append.mpr (Or.inl (List.mem_append.mpr
      (Or.inl (List.mem_append.mpr (Or.inr ?_)))))))
    exact List.mem_append.mpr (Or.inr (updateStatus_fires (by rw [hstSt]; exact hst) _))
  · intro hmem
    simp [List.mem_append, updateStatus_mem_iff, updateComplete_mem_iff, hnoend] at hmem

/-- A truncated stream: WiFi up, everything succeeds, but only 1024 of
the release's 2048 bytes arrive before the connection closes. -/
def shortEnv : InstallEnv :=
  { wifiConnected := true, beginOk := true, httpOk := true,
    events := [⟨true, 1024, 1024, true⟩], endOk := true }

/-- C5 witness: the abort-on-incomplete theorem applied to a concrete
truncated download. -/
theorem downloadAndInstall_incomplete_aborts_witness :
    (downloadAndInstall demoManager demoRelease shortEnv).1 = false
  ∧ Action.updateAbort ∈ (downloadAndInstall demoManager demoRelease shortEnv).2.2
  ∧ Action.updateEnd ∉ (downloadAndInstall demoManager demoRelease shortEnv).2.2 := by
  have h := downloadAndInstall_incomplete_aborts demoManager demoRelease shortEnv
    (by decide) (by decide) (by decide) (by decide) (by decide) (by decide)
    (by decide) (by decide)
  exact ⟨h.1, h.2.1, h.2.2.2.2.1⟩

/-! ### Claim C7 -/

/-- The download loop never reads `updateInProgress`: its guard is only
`http.connected() && downloadedSize < totalSize`, so its emitted actions
are identical whatever the flag holds. -/
theorem dlLoop_ignores_flag (b : Bool) (s : OTAUpdateManager) (ev : List ChunkEvent) :
    dlLoop { s with updateInProgress := b } ev
      = ((dlLoop s ev).1, { (dlLoop s ev).2.1 with updateInProgress := b },
         (dlLoop s ev).2.2) := by
  induction ev generalizing s with
  | nil => rfl
  | cons e rest ih =>
    rw [dlLoop_cons, dlLoop_cons]
    by_cases hg : e.connected ∧ s.downloadedSize < s.totalSize
    · rw [if_pos hg, if_pos hg]
      by_cases ha : 0 < e.available
      · rw [if_pos ha, if_pos ha]
        by_cases hw : e.writeOk = true
        · rw [if_pos hw, if_pos hw]
          have hb : bump { s with updateInProgress := b } e
              = { bump s e with updateInProgress := b } := rfl
          rw [hb, ih (bump s e)]
          rfl
        · rw [if_neg hw, if_neg hw]
          rfl
      · rw [if_neg ha, if_neg ha]
        exact ih s
    · rw [if_neg hg, if_neg hg]

/-- C7 counterexample: `cancelUpdate` sets no abort flag for the loop to
consult.  During a download its entire effect is to abort the target,
clear `updateInProgress` and fire the status and completion callbacks
itself, immediately and synchronously; and the loop run from the
post-cancel state (flag already cleared) still writes the next chunk,
because the loop guard never reads `updateInProgress`. -/
theorem cancelUpdate_no_abort_flag :
    (cancelUpdate { demoManager with updateInProgress := true }).2
      = [Action.updateAbort, Action.status "Update cancelled",
         Action.complete false "Update cancelled by user"]
  ∧ (cancelUpdate { demoManager with updateInProgress := true }).1.updateInProgress = false
  ∧ Action.updateWrite 1024 ∈ (dlLoop
      { demoManager with updateInProgress := false, totalSize := 2048, downloadedSize := 0 }
      [⟨true, 1024, 1024, true⟩]).2.2 := by decide

/-- C7 (amended: outside a download `cancelUpdate` is a no-op with no
state change and no callbacks, as claimed; during one it does not arm an
abort flag consulted by the download loop — no such flag exists and the
loop's emitted actions are independent of `updateInProgress` — instead it
synchronously aborts the update target, clears the guard, and fires the
status and completion callbacks itself with the cancellation message, so
`isUpdateInProgress()` is false immediately afterwards). -/
theorem cancelUpdate_spec (s : OTAUpdateManager) (ev : List ChunkEvent) (b : Bool) :
    (s.updateInProgress = false → cancelUpdate s = (s, []))
  ∧ (s.updateInProgress = true →
      (cancelUpdate s).1 = { s with updateInProgress := false }
      ∧ Action.updateAbort ∈ (cancelUpdate s).2
      ∧ (s.completeCb = true →
          Action.complete false "Update cancelled by user" ∈ (cancelUpdate s).2))
  ∧ (dlLoop { s with updateInProgress := b } ev).2.2 = (dlLoop s ev).2.2 := by
  refine ⟨?_, ?_, ?_⟩
  · intro h
    unfold cancelUpdate
    rw [if_neg (by simp [h])]
  · intro h
    unfold cancelUpdate
    rw [if_pos h]
    refine ⟨rfl, by simp, ?_⟩
    intro hc
    exact List.mem_cons_of_mem _
      (List.mem_append.mpr (Or.inr (updateComplete_fires hc _ _)))
  · rw [dlLoop_ignores_flag]

/-- C7 witness: the cancel theorem applied at an idle manager and at a
busy one. -/
theorem cancelUpdate_spec_witness :
    cancelUpdate (mkManager "r" "1.0.0") = (mkManager "r" "1.0.0", [])
  ∧ Action.updateAbort ∈ (cancelUpdate { demoManager with updateInProgress := true }).2 :=
  ⟨(cancelUpdate_spec (mkManager "r" "1.0.0") [] false).1 rfl,
   ((cancelUpdate_spec { demoManager with updateInProgress := true } [] false).2.1 rfl).2.1⟩

/-! ### Claim C10 -/

/-- The manager with a given registration pattern for the three
callbacks. -/
def withCallbacks (s : OTAUpdateManager) (p st c : Bool) : OTAUpdateManager :=
  { s with progressCb := p, statusCb := st, completeCb := c }

/-- The operational state of the manager: everything except the callback
registrations (the other identity fields are never written by any
operation). -/
def counters (s : OTAUpdateManager) : Bool × Nat × Nat :=
  (s.updateInProgress, s.totalSize, s.downloadedSize)

def isProgress : Action → Bool
  | Action.progress _ _ => true
  | _ => false

def isStatus : Action → Bool
  | Action.status _ => true
  | _ => false

def isComplete : Action → Bool
  | Action.complete _ _ => true
  | _ => false

/-- The triple of guard properties an action must satisfy relative to the
registration flags of the emitting state. -/
def RespectsFlags (s : OTAUpdateManager) (a : Action) : Prop :=
  (s.progressCb = false → isProgress a = false)
  ∧ (s.statusCb = false → isStatus a = false)
  ∧ (s.completeCb = false → isComplete a = false)

theorem respects_of_updateStatus {s : OTAUpdateManager} {m : String} {a : Action}
    (h : a ∈ updateStatus s m) : RespectsFlags s a := by
  obtain ⟨ha, hf⟩ := updateStatus_mem_iff.mp h
  subst ha
  refine ⟨fun _ => rfl, fun hfalse => ?_, fun _ => rfl⟩
  rw [hf] at hfalse
  simp at hfalse

theorem respects_of_updateProgress {s : OTAUpdateManager} {x t : Nat} {a : Action}
    (h : a ∈ updateProgress s x t) : RespectsFlags s a := by
  obtain ⟨ha, hf⟩ := updateProgress_mem_iff.mp h
  subst ha
  refine ⟨fun hfalse => ?_, fun _ => rfl, fun _ => rfl⟩
  rw [hf] at hfalse
  simp at hfalse

theorem respects_of_updateComplete {s : OTAUpdateManager} {ok : Bool} {m : String}
    {a : Action} (h : a ∈ updateComplete s ok m) : RespectsFlags s a := by
  obtain ⟨ha, hf⟩ := updateComplete_mem_iff.mp h
  subst ha
  refine ⟨fun _ => rfl, fun _ => rfl, fun hfalse => ?_⟩
  rw [hf] at hfalse
  simp at hfalse

theorem respects_of_neutral {s : OTAUpdateManager} {a : Action}
    (h1 : isProgress a = false) (h2 : isStatus a = false) (h3 : isComplete a = false) :
    RespectsFlags s a :=
  ⟨fun _ => h1, fun _ => h2, fun _ => h3⟩

/-- Two runs of the download loop that differ only in callback
registration have the same exit flag and the same state up to the
registration fields. -/
theorem dlLoop_withCallbacks (s : OTAUpdateManager) (p st c : Bool) (ev : List ChunkEvent) :
    (dlLoop (withCallbacks s p st c) ev).1 = (dlLoop s ev).1
  ∧ (dlLoop (withCallbacks s p st c) ev).2.1 = withCallbacks (dlLoop s ev).2.1 p st c := by
  induction ev generalizing s with
  | nil => exact ⟨rfl, rfl⟩
  | cons e rest ih =>
    rw [dlLoop_cons, dlLoop_cons]
    simp only [show (withCallbacks s p st c).downloadedSize = s.downloadedSize from rfl,
      show (withCallbacks s p st c).totalSize = s.totalSize from rfl]
    by_cases hg : e.connected ∧ s.downloadedSize < s.totalSize
    · rw [if_pos hg, if_pos hg]
      by_cases ha : 0 < e.available
      · rw [if_pos ha, if_pos ha]
        by_cases hw : e.writeOk = true
        · rw [if_pos hw, if_pos hw]
          have hb : bump (withCallbacks s p st c) e = withCallbacks (bump s e) p st c := rfl
          rw [hb]
          exact ⟨(ih (bump s e)).1, (ih (bump s e)).2⟩
        · rw [if_neg hw, if_neg hw]
          exact ⟨rfl, rfl⟩
      · rw [if_neg ha, if_neg ha]
        exact ih s
    · rw [if_neg hg, if_neg hg]
      exact ⟨rfl, rfl⟩

/-- Every action the download loop emits respects the registration
guards. -/
theorem dlLoop_flags_respected (s : OTAUpdateManager) (ev : List ChunkEvent) :
    ∀ a ∈ (dlLoop s ev).2.2, RespectsFlags s a := by
  induction ev generalizing s with
  | nil => simp [dlLoop]
  | cons e rest ih =>
    rw [dlLoop_cons]
    by_cases hg : e.connected ∧ s.downloadedSize < s.totalSize
    · rw [if_pos hg]
      by_cases ha : 0 < e.available
      · rw [if_pos ha]
        by_cases hw : e.writeOk = true
        · rw [if_pos hw]
          intro a hmem
          simp only [List.mem_cons, List.mem_append] at hmem
          rcases hmem with hmem | hmem | hmem
          · subst hmem
            exact respects_of_neutral rfl rfl rfl
          · exact respects_of_updateProgress hmem
          · exact ih (bump s e) a hmem
        · rw [if_neg hw]
          intro a hmem
          simp only [List.mem_append, List.mem_singleton] at hmem
          rcases hmem with hmem | hmem
          · subst hmem
            exact respects_of_neutral rfl rfl rfl
          · exact respects_of_updateStatus hmem
      · rw [if_neg ha]
        exact ih s
    · rw [if_neg hg]
      simp

theorem respects_congr {s1 s2 : OTAUpdateManager} {a : Action}
    (hp : s1.progressCb = s2.progressCb) (hs : s1.statusCb = s2.statusCb)
    (hc : s1.completeCb = s2.completeCb) (h : RespectsFlags s1 a) : RespectsFlags s2 a :=
  ⟨fun h2 => h.1 (by rw [hp, h2]), fun h2 => h.2.1 (by rw [hs, h2]),
   fun h2 => h.2.2 (by rw [hc, h2])⟩

theorem dlLoop_flags_preserved (s : OTAUpdateManager) (ev : List ChunkEvent) :
    (dlLoop s ev).2.1.progressCb = s.progressCb
  ∧ (dlLoop s ev).2.1.statusCb = s.statusCb
  ∧ (dlLoop s ev).2.1.completeCb = s.completeCb := by
  obtain ⟨d, _, hst⟩ := dlLoop_state s ev
  rw [hst]
  exact ⟨rfl, rfl, rfl⟩

theorem downloadFirmware_flags_preserved (s : OTAUpdateManager) (url : String)
    (size : Nat) (ok : Bool) (events : List ChunkEvent) :
    (downloadFirmware s url size ok events).2.1.progressCb = s.progressCb
  ∧ (downloadFirmware s url size ok events).2.1.statusCb = s.statusCb
  ∧ (downloadFirmware s url size ok events).2.1.completeCb = s.completeCb := by
  cases ok with
  | false => exact ⟨rfl, rfl, rfl⟩
  | true =>
    rcases hr : dlLoop { s with totalSize := size, downloadedSize := 0 } events
      with ⟨flag, st1, acts⟩
    have h := dlLoop_flags_preserved { s with totalSize := size, downloadedSize := 0 } events
    rw [hr] at h
    rw [downloadFirmware_run s url size events flag st1 acts hr]
    split_ifs <;> exact ⟨h.1, h.2.1, h.2.2⟩

theorem downloadFirmware_withCallbacks (s : OTAUpdateManager) (p st c : Bool)
    (url : String) (size : Nat) (ok : Bool) (events : List ChunkEvent) :
    (downloadFirmware (withCallbacks s p st c) url size ok events).1
        = (downloadFirmware s url size ok events).1
  ∧ (downloadFirmware (withCallbacks s p st c) url size ok events).2.1
        = withCallbacks (downloadFirmware s url size ok events).2.1 p st c := by
  cases ok with
  | false => exact ⟨rfl, rfl⟩
  | true =>
    rcases hr : dlLoop { s with totalSize := size, downloadedSize := 0 } events
      with ⟨flag, st1, acts⟩
    rcases hr2 : dlLoop { withCallbacks s p st c with totalSize := size, downloadedSize := 0 }
      events with ⟨flag2, st2, acts2⟩
    have hwc := dlLoop_withCallbacks { s with totalSize := size, downloadedSize := 0 }
      p st c events
    rw [hr] at hwc
    have hr2x : dlLoop (withCallbacks { s with totalSize := size, downloadedSize := 0 } p st c)
        events = (flag2, st2, acts2) := hr2
    rw [hr2x] at hwc
    have hflag : flag2 = flag := hwc.1
    have hst2 : st2 = withCallbacks st1 p st c := hwc.2
    rw [hflag, hst2] at hr2
    rw [downloadFirmware_run (withCallbacks s p st c) url size events flag
        (withCallbacks st1 p st c) acts2 hr2,
      downloadFirmware_run s url size events flag st1 acts hr]
    simp only [show (withCallbacks st1 p st c).downloadedSize = st1.downloadedSize from rfl,
      show (withCallbacks st1 p st c).totalSize = st1.totalSize from rfl]
    split_ifs <;> exact ⟨rfl, rfl⟩

theorem downloadFirmware_flags_respected (s : OTAUpdateManager) (url : String)
    (size : Nat) (ok : Bool) (events : List ChunkEvent) :
    ∀ a ∈ (downloadFirmware s url size ok events).2.2, RespectsFlags s a := by
  cases ok with
  | false =>
    intro a hmem
    have hmem2 : a ∈ updateStatus s "Downloading firmware..." ++ [Action.httpGet url] := hmem
    simp only [List.mem_append, List.mem_singleton] at hmem2
    rcases hmem2 with h | h
    · exact respects_of_updateStatus h
    · subst h
      exact respects_of_neutral rfl rfl rfl
  | true =>
    rcases hr : dlLoop { s with totalSize := size, downloadedSize := 0 } events
      with ⟨flag, st1, acts⟩
    have hrun := downloadFirmware_run s url size events flag st1 acts hr
    have hflags := dlLoop_flags_preserved { s with totalSize := size, downloadedSize := 0 } events
    rw [hr] at hflags
    have hstP : st1.progressCb = s.progressCb := hflags.1
    have hstS : st1.statusCb = s.statusCb := hflags.2.1
    have hstC : st1.completeCb = s.completeCb := hflags.2.2
    have hacts : ∀ a ∈ acts, RespectsFlags s a := by
      intro a ha
      exact dlLoop_flags_respected { s with totalSize := size, downloadedSize := 0 } events a
        (by rw [hr]; exact ha)
    intro a hmem
    rw [hrun] at hmem
    split_ifs at hmem
    · simp only [List.mem_append, List.mem_singleton] at hmem
      rcases hmem with (h | h) | h
      · exact respects_of_updateStatus h
      · subst h
        exact respects_of_neutral rfl rfl rfl
      · exact hacts a h
    · simp only [List.mem_append, List.mem_singleton] at hmem
      rcases hmem with ((h | h) | h) | h
      · exact respects_of_updateStatus h
      · subst h
        exact respects_of_neutral rfl rfl rfl
      · exact hacts a h
      · exact respects_congr hstP hstS hstC (respects_of_updateStatus h)
    · simp only [List.mem_append, List.mem_singleton] at hmem
      rcases hmem with (h | h) | h
      · exact respects_of_updateStatus h
      · subst h
        exact respects_of_neutral rfl rfl rfl
      · exact hacts a h

theorem downloadAndInstall_withCallbacks (s : OTAUpdateManager) (p st c : Bool)
    (release : GitHubRelease) (env : InstallEnv) :
    (downloadAndInstall (withCallbacks s p st c) release env).1
        = (downloadAndInstall s release env).1
  ∧ counters (downloadAndInstall (withCallbacks s p st c) release env).2.1
        = counters (downloadAndInstall s release env).2.1 := by
  rcases hd : downloadFirmware { s with updateInProgress := true } release.downloadUrl
      release.fileSize env.httpOk env.events with ⟨flag, st1, acts⟩
  rcases hd2 : downloadFirmware { withCallbacks s p st c with updateInProgress := true }
      release.downloadUrl release.fileSize env.httpOk env.events with ⟨flag2, st2, acts2⟩
  have hwc := downloadFirmware_withCallbacks { s with updateInProgress := true } p st c
      release.downloadUrl release.fileSize env.httpOk env.events
  rw [hd] at hwc
  have hd2x : downloadFirmware (withCallbacks { s with updateInProgress := true } p st c)
      release.downloadUrl release.fileSize env.httpOk env.events = (flag2, st2, acts2) := hd2
  rw [hd2x] at hwc
  have hflag : flag2 = flag := hwc.1
  have hst2 : st2 = withCallbacks st1 p st c := hwc.2
  subst hflag
  subst hst2
  simp only [downloadAndInstall]
  rw [hd, hd2]
  simp only [show (withCallbacks s p st c).updateInProgress = s.updateInProgress from rfl]
  split_ifs <;> exact ⟨rfl, rfl⟩

theorem downloadAndInstall_flags_respected (s : OTAUpdateManager)
    (release : GitHubRelease) (env : InstallEnv) :
    ∀ a ∈ (downloadAndInstall s release env).2.2, RespectsFlags s a := by
  rcases hd : downloadFirmware { s with updateInProgress := true } release.downloadUrl
      release.fileSize env.httpOk env.events with ⟨flag, st1, acts⟩
  have hdf : ∀ a ∈ acts, RespectsFlags s a := by
    intro a ha
    exact downloadFirmware_flags_respected { s with updateInProgress := true }
      release.downloadUrl release.fileSize env.httpOk env.events a (by rw [hd]; exact ha)
  have hflags := downloadFirmware_flags_preserved { s with updateInProgress := true }
    release.downloadUrl release.fileSize env.httpOk env.events
  rw [hd] at hflags
  have hstP : st1.progressCb = s.progressCb := hflags.1
  have hstS : st1.statusCb = s.statusCb := hflags.2.1
  have hstC : st1.completeCb = s.completeCb := hflags.2.2
  intro a hmem
  simp only [downloadAndInstall] at hmem
  rw [hd] at hmem
  split_ifs at hmem
  · exact respects_of_updateStatus hmem
  · exact respects_of_updateStatus hmem
  · simp only [List.mem_append, List.mem_singleton] at hmem
    rcases hmem with (h | h) | h
    · exact respects_of_updateStatus h
    · subst h
      exact respects_of_neutral rfl rfl rfl
    · exact respects_of_updateStatus h
  · simp only [List.mem_append, List.mem_singleton] at hmem
    rcases hmem with ((((((h | h) | h) | h) | h) | h) | h)
    · exact respects_of_updateStatus h
    · subst h
      exact respects_of_neutral rfl rfl rfl
    · exact hdf a h
    · subst h
      exact respects_of_neutral rfl rfl rfl
    · exact respects_congr hstP hstS hstC (respects_of_updateStatus h)
    · exact respects_congr hstP hstS hstC (respects_of_updateComplete h)
    · subst h
      exact respects_of_neutral rfl rfl rfl
  · simp only [List.mem_append, List.mem_singleton] at hmem
    rcases hmem with (((((h | h) | h) | h) | h) | h)
    · exact respects_of_updateStatus h
    · subst h
      exact respects_of_neutral rfl rfl rfl
    · exact hdf a h
    · subst h
      exact respects_of_neutral rfl rfl rfl
    · exact respects_congr hstP hstS hstC (respects_of_updateStatus h)
    · exact respects_congr hstP hstS hstC (respects_of_updateComplete h)
  · simp only [List.mem_append, List.mem_singleton] at hmem
    rcases hmem with (((((h | h) | h) | h) | h) | h)
    · exact respects_of_updateStatus h
    · subst h
      exact respects_of_neutral rfl rfl rfl
    · exact hdf a h
    · subst h
      exact respects_of_neutral rfl rfl rfl
    · exact respects_congr hstP hstS hstC (respects_of_updateStatus h)
    · exact respects_congr hstP hstS hstC (respects_of_updateComplete h)

theorem checkForUpdates_withCallbacks (s : OTAUpdateManager) (p st c : Bool)
    (env : CheckEnv) :
    (checkForUpdates (withCallbacks s p st c) env).1 = (checkForUpdates s env).1
  ∧ (checkForUpdates (withCallbacks s p st c) env).2.1 = (checkForUpdates s env).2.1 := by
  simp only [checkForUpdates]
  split_ifs
  · exact ⟨rfl, rfl⟩
  · exact ⟨rfl, rfl⟩
  · cases parseLatestRelease env.responseJson <;> exact ⟨rfl, rfl⟩

theorem checkForUpdates_flags_respected (s : OTAUpdateManager) (env : CheckEnv) :
    ∀ a ∈ (checkForUpdates s env).2.2, RespectsFlags s a := by
  intro a hmem
  simp only [checkForUpdates] at hmem
  split_ifs at hmem
  · exact respects_of_updateStatus hmem
  · simp only [List.mem_append, List.mem_singleton] at hmem
    rcases hmem with (h | h) | h
    · exact respects_of_updateStatus h
    · subst h
      exact respects_of_neutral rfl rfl rfl
    · exact respects_of_updateStatus h
  · rcases hp : parseLatestRelease env.responseJson with _ | rel <;> rw [hp] at hmem <;>
      simp only [List.mem_append, List.mem_singleton] at hmem <;>
      rcases hmem with (h | h) | h
    · exact respects_of_updateStatus h
    · subst h
      exact respects_of_neutral rfl rfl rfl
    · exact respects_of_updateStatus h
    · exact respects_of_updateStatus h
    · subst h
      exact respects_of_neutral rfl rfl rfl
    · exact respects_of_updateStatus h

theorem cancelUpdate_withCallbacks (s : OTAUpdateManager) (p st c : Bool) :
    counters (cancelUpdate (withCallbacks s p st c)).1 = counters (cancelUpdate s).1 := by
  unfold cancelUpdate
  simp only [show (withCallbacks s p st c).updateInProgress = s.updateInProgress from rfl]
  split_ifs <;> rfl

theorem cancelUpdate_flags_respected (s : OTAUpdateManager) :
    ∀ a ∈ (cancelUpdate s).2, RespectsFlags s a := by
  intro a hmem
  unfold cancelUpdate at hmem
  split_ifs at hmem
  · simp only [List.mem_cons, List.mem_append] at hmem
    rcases hmem with h | h | h
    · subst h
      exact respects_of_neutral rfl rfl rfl
    · exact respects_of_updateStatus h
    · exact respects_of_updateComplete h
  · simp at hmem

/-- C10: every callback invocation is guarded by the registration check
on its handler.  Changing which callbacks are registered never changes
the Bool result or the operational state (`updateInProgress`,
`totalSize`, `downloadedSize`) of `downloadAndInstall`, the result and
parsed release of `checkForUpdates`, or the state of `cancelUpdate`; and
no action of an unregistered kind ever appears in any of the three
operations' traces. -/
theorem callbacks_null_guarded (s : OTAUpdateManager) (p st c : Bool)
    (release : GitHubRelease) (env : InstallEnv) (cenv : CheckEnv) :
    ((downloadAndInstall (withCallbacks s p st c) release env).1
        = (downloadAndInstall s release env).1
      ∧ counters (downloadAndInstall (withCallbacks s p st c) release env).2.1
        = counters (downloadAndInstall s release env).2.1)
  ∧ ((checkForUpdates (withCallbacks s p st c) cenv).1 = (checkForUpdates s cenv).1
      ∧ (checkForUpdates (withCallbacks s p st c) cenv).2.1 = (checkForUpdates s cenv).2.1)
  ∧ counters (cancelUpdate (withCallbacks s p st c)).1 = counters (cancelUpdate s).1
  ∧ (∀ a ∈ (downloadAndInstall s release env).2.2, RespectsFlags s a)
  ∧ (∀ a ∈ (checkForUpdates s cenv).2.2, RespectsFlags s a)
  ∧ (∀ a ∈ (cancelUpdate s).2, RespectsFlags s a) :=
  ⟨downloadAndInstall_withCallbacks s p st c release env,
   checkForUpdates_withCallbacks s p st c cenv,
   cancelUpdate_withCallbacks s p st c,
   downloadAndInstall_flags_respected s release env,
   checkForUpdates_flags_respected s cenv,
   cancelUpdate_flags_respected s⟩

/-- C10 witness: the guard theorem at a concrete manager, and the flag
guard evaluated at a concrete trace element of a run with no callbacks
registered. -/
theorem callbacks_null_guarded_witness :
    ((downloadAndInstall (withCallbacks demoManager false false false) demoRelease demoEnv).1
        = (downloadAndInstall demoManager demoRelease demoEnv).1)
  ∧ Action.updateWrite 1024 ∈ (downloadAndInstall (mkManager "r" "1.0.0") demoRelease demoEnv).2.2
  ∧ RespectsFlags (mkManager "r" "1.0.0") (Action.updateWrite 1024) :=
  ⟨(callbacks_null_guarded demoManager false false false demoRelease demoEnv
      ⟨true, true, none⟩).1.1,
   by decide,
   (callbacks_null_guarded (mkManager "r" "1.0.0") false false false demoRelease demoEnv
      ⟨true, true, none⟩).2.2.2.1 (Action.updateWrite 1024) (by decide)⟩

/-! ### Claim C8 -/

/-- The sequence of values handed to the progress callback by a trace, in
order: `updateProgress` passes `floor(current*100/total)`. -/
def progressValues : List Action → List Nat
  | [] => []
  | a :: rest =>
    match a with
    | Action.progress x t => percentOf x t :: progressValues rest
    | _ => progressValues rest

theorem progressValues_cons_progress (x t : Nat) (rest : List Action) :
    progressValues (Action.progress x t :: rest) = percentOf x t :: progressValues rest := rfl

theorem progressValues_cons_write (n : Nat) (rest : List Action) :
    progressValues (Action.updateWrite n :: rest) = progressValues rest := rfl

theorem progressValues_append (A B : List Action) :
    progressValues (A ++ B) = progressValues A ++ progressValues B := by
  induction A with
  | nil => rfl
  | cons a rest ih =>
    rw [List.cons_append]
    cases a <;> simp [progressValues, ih]

theorem progressValues_updateStatus (s : OTAUpdateManager) (m : String) :
    progressValues (updateStatus s m) = [] := by
  unfold updateStatus
  by_cases hs : s.statusCb = true
  · rw [if_pos hs]
    rfl
  · rw [if_neg hs]
    rfl

theorem progressValues_updateProgress (s : OTAUpdateManager) (x t : Nat)
    (hp : s.progressCb = true) :
    progressValues (updateProgress s x t) = [percentOf x t] := by
  unfold updateProgress
  rw [if_pos hp]
  rfl

theorem percentOf_mono_bounded {x y : Nat} (t : Nat) (h : x ≤ y)
    (hb : y * 100 < 2 ^ 32) : percentOf x t ≤ percentOf y t := by
  unfold percentOf
  have hx : x * 100 < 2 ^ 32 := lt_of_le_of_lt (Nat.mul_le_mul_right _ h) hb
  rw [Nat.mod_eq_of_lt hx, Nat.mod_eq_of_lt hb]
  exact Nat.div_le_div_right (Nat.mul_le_mul_right _ h)

theorem percentOf_self_bounded {t : Nat} (ht : 0 < t) (hb : t * 100 < 2 ^ 32) :
    percentOf t t = 100 := by
  unfold percentOf
  rw [Nat.mod_eq_of_lt hb]
  exact Nat.mul_div_cancel_left 100 ht

theorem percentOf_eq_100 {x t : Nat} (hpos : 0 < t) (hle : x ≤ t)
    (h : percentOf x t = 100) : x = t := by
  unfold percentOf at h
  have hmle : x * 100 % 2 ^ 32 ≤ x * 100 := Nat.mod_le _ _
  have h2 := (Nat.le_div_iff_mul_le hpos).mp (le_of_eq h.symm)
  omega

theorem getLast?_cons_of_some {x v : Nat} {l : List Nat} (h : l.getLast? = some v) :
    (x :: l).getLast? = some v := by
  cases l with
  | nil => simp at h
  | cons y ys =>
    rw [List.getLast?_cons_cons]
    exact h

/-- Once the counter has reached the total, the loop does nothing more. -/
theorem dlLoop_saturated (s : OTAUpdateManager) (ev : List ChunkEvent)
    (h : ¬ s.downloadedSize < s.totalSize) : dlLoop s ev = (true, s, []) := by
  cases ev with
  | nil => rfl
  | cons e rest =>
    rw [dlLoop_cons, if_neg (fun hg => h hg.2)]

/-- The progress values of a loop run are non-decreasing and bounded
below by the entry percentage. -/
theorem dlLoop_values_mono (s : OTAUpdateManager) (ev : List ChunkEvent)
    (hbound : (dlLoop s ev).2.1.downloadedSize * 100 < 2 ^ 32) :
    List.Chain' (· ≤ ·) (progressValues (dlLoop s ev).2.2)
  ∧ ∀ v ∈ progressValues (dlLoop s ev).2.2,
      percentOf s.downloadedSize s.totalSize ≤ v := by
  induction ev generalizing s with
  | nil => simp [dlLoop, progressValues]
  | cons e rest ih =>
    rw [dlLoop_cons] at hbound ⊢
    by_cases hg : e.connected ∧ s.downloadedSize < s.totalSize
    · rw [if_pos hg] at hbound ⊢
      by_cases ha : 0 < e.available
      · rw [if_pos ha] at hbound ⊢
        by_cases hw : e.writeOk = true
        · rw [if_pos hw] at hbound ⊢
          have hbound2 : (dlLoop (bump s e) rest).2.1.downloadedSize * 100 < 2 ^ 32 := hbound
          have hble : (bump s e).downloadedSize * 100 < 2 ^ 32 := by
            have hle := dlLoop_downloaded_ge (bump s e) rest
            have hmul := Nat.mul_le_mul_right 100 hle
            omega
          have hval : progressValues (Action.updateWrite (readLen e) ::
              (updateProgress (bump s e) (bump s e).downloadedSize (bump s e).totalSize
                ++ (dlLoop (bump s e) rest).2.2))
              = progressValues (updateProgress (bump s e) (bump s e).downloadedSize
                  (bump s e).totalSize)
                ++ progressValues (dlLoop (bump s e) rest).2.2 := by
            rw [progressValues_cons_write, progressValues_append]
          obtain ⟨ihc, ihb⟩ := ih (bump s e) hbound2
          by_cases hp : s.progressCb = true
          · have hp2 : (bump s e).progressCb = true := hp
            rw [hval, progressValues_updateProgress _ _ _ hp2, List.singleton_append]
            constructor
            · rw [List.chain'_cons']
              refine ⟨?_, ihc⟩
              intro y hy
              exact ihb y (List.mem_of_mem_head? hy)
            · intro v hv
              rcases List.mem_cons.mp hv with hv | hv
              · subst hv
                exact percentOf_mono_bounded _ (Nat.le_add_right _ _) hble
              · exact le_trans (percentOf_mono_bounded _ (Nat.le_add_right _ _) hble)
                  (ihb v hv)
          · have hp2 : ¬ (bump s e).progressCb = true := hp
            have hval2 : progressValues (updateProgress (bump s e) (bump s e).downloadedSize
                (bump s e).totalSize) = [] := by
              unfold updateProgress
              rw [if_neg hp2]
              rfl
            rw [hval, hval2, List.nil_append]
            refine ⟨ihc, ?_⟩
            intro v hv
            exact le_trans (percentOf_mono_bounded _ (Nat.le_add_right _ _) hble) (ihb v hv)
        · rw [if_neg hw]
          have hval : progressValues (Action.updateWrite (readLen e)
              :: updateStatus s "Write failed") = [] := by
            rw [progressValues_cons_write, progressValues_updateStatus]
          simp [hval]
      · rw [if_neg ha] at hbound ⊢
        exact ih s hbound
    · rw [if_neg hg]
      simp [progressValues]

/-- In a successful and complete loop run that started strictly below the
total with the progress callback registered, the last reported value is
exactly 100. -/
theorem dlLoop_last_100 (s : OTAUpdateManager) (ev : List ChunkEvent)
    (hp : s.progressCb = true) (hlt : s.downloadedSize < s.totalSize)
    (hb : s.totalSize * 100 < 2 ^ 32)
    (hflag : (dlLoop s ev).1 = true)
    (hfull : (dlLoop s ev).2.1.downloadedSize = s.totalSize) :
    (progressValues (dlLoop s ev).2.2).getLast? = some 100 := by
  induction ev generalizing s with
  | nil =>
    have h : s.downloadedSize = s.totalSize := hfull
    omega
  | cons e rest ih =>
    rw [dlLoop_cons] at hflag hfull ⊢
    by_cases hg : e.connected ∧ s.downloadedSize < s.totalSize
    · rw [if_pos hg] at hflag hfull ⊢
      by_cases ha : 0 < e.available
      · rw [if_pos ha] at hflag hfull ⊢
        by_cases hw : e.writeOk = true
        · rw [if_pos hw] at hflag hfull ⊢
          have hp2 : (bump s e).progressCb = true := hp
          by_cases hdone : (bump s e).downloadedSize < (bump s e).totalSize
          · have hflag2 : (dlLoop (bump s e) rest).1 = true := hflag
            have hfull2 : (dlLoop (bump s e) rest).2.1.downloadedSize
                = (bump s e).totalSize := hfull
            have hb2 : (bump s e).totalSize * 100 < 2 ^ 32 := hb
            have hrec := ih (bump s e) hp2 hdone hb2 hflag2 hfull2
            show (progressValues (Action.updateWrite (readLen e) ::
              (updateProgress (bump s e) (bump s e).downloadedSize (bump s e).totalSize
                ++ (dlLoop (bump s e) rest).2.2))).getLast? = some 100
            rw [progressValues_cons_write, progressValues_append,
              progressValues_updateProgress _ _ _ hp2, List.singleton_append]
            exact getLast?_cons_of_some hrec
          · have hstop := dlLoop_saturated (bump s e) rest hdone
            rw [hstop] at hfull ⊢
            have heq : (bump s e).downloadedSize = s.totalSize := hfull
            have htp : 0 < s.totalSize := by omega
            show (progressValues (Action.updateWrite (readLen e) ::
              (updateProgress (bump s e) (bump s e).downloadedSize (bump s e).totalSize
                ++ ((true, bump s e, ([] : List Action)) : Bool × OTAUpdateManager × List Action).2.2))).getLast?
                = some 100
            rw [progressValues_cons_write, progressValues_append,
              progressValues_updateProgress _ _ _ hp2]
            have hbt : (bump s e).totalSize = s.totalSize := rfl
            rw [heq, hbt, percentOf_self_bounded htp hb]
            rfl
        · rw [if_neg hw] at hflag
          exact absurd hflag (by simp)
      · rw [if_neg ha] at hflag hfull ⊢
        exact ih s hp hg.2 hb hflag hfull
    · rw [if_neg hg] at hfull
      have h : s.downloadedSize = s.totalSize := hfull
      omega

/-- C8: across every successful download whose expected size keeps the
32-bit product downloaded*100 from wrapping (size*100 < 2^32, i.e. size
at most 42949672 bytes; with the progress callback registered and a
positive expected size), the values handed to the progress callback are
non-decreasing; each reported pair carries the expected size as its
total and a current count within it, so each value is
floor(downloaded*100/total) in integer arithmetic; no value reaches
exactly 100 before the downloaded count equals the total; and the final
value delivered is exactly 100.  Beyond that size the 32-bit wrap in
(downloadedSize * 100) / totalSize breaks the claim; see the
counterexample. -/
theorem downloadFirmware_progress_sequence (s : OTAUpdateManager) (url : String)
    (size : Nat) (events : List ChunkEvent)
    (hp : s.progressCb = true) (hpos : 0 < size)
    (hsize : size * 100 < 2 ^ 32)
    (hok : (downloadFirmware s url size true events).1 = true) :
    List.Chain' (· ≤ ·) (progressValues (downloadFirmware s url size true events).2.2)
  ∧ (∀ x t, Action.progress x t ∈ (downloadFirmware s url size true events).2.2 →
      t = size ∧ percentOf x t = x * 100 / size ∧ x ≤ size
      ∧ (percentOf x t = 100 → x = t))
  ∧ (progressValues (downloadFirmware s url size true events).2.2).getLast? = some 100 := by
  rcases hr : dlLoop { s with totalSize := size, downloadedSize := 0 } events
    with ⟨flag, st1, acts⟩
  have hrun := downloadFirmware_run s url size events flag st1 acts hr
  have htS : st1.totalSize = size := by
    have h := dlLoop_totalSize { s with totalSize := size, downloadedSize := 0 } events
    rw [hr] at h
    exact h
  have hsucc : flag = true ∧ st1.downloadedSize = st1.totalSize := by
    rw [hrun] at hok
    by_cases h1 : (!flag) = true
    · rw [if_pos h1] at hok
      exact absurd hok (by simp)
    · rw [if_neg h1] at hok
      have hf : flag = true := by
        cases flag
        · simp at h1
        · rfl
      by_cases h2 : st1.downloadedSize ≠ st1.totalSize
      · rw [if_pos h2] at hok
        exact absurd hok (by simp)
      · exact ⟨hf, by omega⟩
  obtain ⟨hflag, hfull⟩ := hsucc
  subst hflag
  have htrace : (downloadFirmware s url size true events).2.2
      = updateStatus s "Downloading firmware..." ++ [Action.httpGet url] ++ acts := by
    rw [hrun, if_neg (by simp), if_neg (by omega)]
  have hpv : progressValues (downloadFirmware s url size true events).2.2
      = progressValues acts := by
    rw [htrace, progressValues_append, progressValues_append, progressValues_updateStatus]
    rfl
  refine ⟨?_, ?_, ?_⟩
  · rw [hpv]
    have h := (dlLoop_values_mono { s with totalSize := size, downloadedSize := 0 } events
      (by rw [hr]; show st1.downloadedSize * 100 < 2 ^ 32; rw [hfull, htS]; exact hsize)).1
    rw [hr] at h
    exact h
  · intro x t hmem
    rw [htrace] at hmem
    simp only [List.mem_append, List.mem_singleton] at hmem
    rcases hmem with (h | h) | h
    · exact (progress_not_in_updateStatus h).elim
    · exact absurd h (by simp)
    · have hm := dlLoop_progress_mem { s with totalSize := size, downloadedSize := 0 } events
        (x := x) (t := t) (by rw [hr]; exact h)
      rw [hr] at hm
      have h1 : t = size := hm.1
      have h3 : x ≤ st1.downloadedSize := hm.2.2
      have hx : x ≤ size := by omega
      refine ⟨h1, ?_, hx, ?_⟩
      · rw [h1]
        unfold percentOf
        rw [Nat.mod_eq_of_lt (lt_of_le_of_lt (Nat.mul_le_mul_right 100 hx) hsize)]
      · intro h100
        exact percentOf_eq_100 (by omega) (by omega) h100
  · rw [hpv]
    have h := dlLoop_last_100 { s with totalSize := size, downloadedSize := 0 } events
      hp hpos hsize (by rw [hr]) (by rw [hr]; exact (show st1.downloadedSize = size by omega))
    rw [hr] at h
    exact h

/-- C8 witness: the progress-sequence theorem on a concrete two-chunk
2048-byte download, whose reported values are [50, 100]. -/
theorem downloadFirmware_progress_sequence_witness :
    (downloadFirmware demoManager "u" 2048 true demoEnv.events).1 = true
  ∧ progressValues (downloadFirmware demoManager "u" 2048 true demoEnv.events).2.2 = [50, 100]
  ∧ (progressValues (downloadFirmware demoManager "u" 2048 true demoEnv.events).2.2).getLast?
      = some 100 := by
  refine ⟨by decide, by decide, ?_⟩
  exact (downloadFirmware_progress_sequence demoManager "u" 2048 demoEnv.events rfl
    (by decide) (by decide) (by decide)).2.2

/-- One fully delivered 1024-byte chunk: stream connected, a full buffer
available, all bytes read, and the flash write succeeding. -/
def fullChunk : ChunkEvent := ⟨true, 1024, 1024, true⟩

/-- A run over n+1 full 1024-byte chunks that exactly covers the missing
bytes succeeds, fills the counter to the total, and its last reported
progress value is the percentage computed at the full total. -/
theorem dlLoop_replicate_full (n : Nat) (s : OTAUpdateManager)
    (hp : s.progressCb = true)
    (ht : s.totalSize = s.downloadedSize + 1024 * (n + 1)) :
    (dlLoop s (List.replicate (n + 1) fullChunk)).1 = true
  ∧ (dlLoop s (List.replicate (n + 1) fullChunk)).2.1.downloadedSize = s.totalSize
  ∧ (progressValues (dlLoop s (List.replicate (n + 1) fullChunk)).2.2).getLast?
      = some (percentOf s.totalSize s.totalSize) := by
  induction n generalizing s with
  | zero =>
    rw [List.replicate_succ, List.replicate_zero, dlLoop_cons]
    have hlt : s.downloadedSize < s.totalSize := by omega
    rw [if_pos ⟨rfl, hlt⟩, if_pos (show 0 < fullChunk.available by decide),
      if_pos (show fullChunk.writeOk = true from rfl)]
    have hnil : dlLoop (bump s fullChunk) [] = (true, bump s fullChunk, []) := rfl
    rw [hnil]
    have hd : (bump s fullChunk).downloadedSize = s.totalSize := by
      show s.downloadedSize + 1024 = s.totalSize
      omega
    have hp2 : (bump s fullChunk).progressCb = true := hp
    refine ⟨rfl, hd, ?_⟩
    rw [progressValues_cons_write, progressValues_append,
      progressValues_updateProgress _ _ _ hp2, hd]
    rfl
  | succ n ih =>
    rw [List.replicate_succ, dlLoop_cons]
    have hlt : s.downloadedSize < s.totalSize := by omega
    rw [if_pos ⟨rfl, hlt⟩, if_pos (show 0 < fullChunk.available by decide),
      if_pos (show fullChunk.writeOk = true from rfl)]
    have hp2 : (bump s fullChunk).progressCb = true := hp
    have ht2 : (bump s fullChunk).totalSize
        = (bump s fullChunk).downloadedSize + 1024 * (n + 1) := by
      show s.totalSize = s.downloadedSize + 1024 + 1024 * (n + 1)
      omega
    obtain ⟨ih1, ih2, ih3⟩ := ih (bump s fullChunk) hp2 ht2
    refine ⟨ih1, ih2, ?_⟩
    rw [progressValues_cons_write, progressValues_append,
      progressValues_updateProgress _ _ _ hp2, List.singleton_append]
    have ih3c : (progressValues
        (dlLoop (bump s fullChunk) (List.replicate (n + 1) fullChunk)).2.2).getLast?
        = some (percentOf s.totalSize s.totalSize) := ih3
    exact getLast?_cons_of_some ih3c

/-- C8 counterexample: the percentage is computed as
(downloadedSize * 100) / totalSize in 32-bit size_t arithmetic, so at an
expected size of 2^26 = 67108864 bytes the product wraps around 2^32 and
a fully successful download (65536 full 1024-byte chunks) ends with the
progress callback reporting 36, not 100; the values are also not tied to
the bytes actually downloaded once the wrap occurs. -/
theorem download_percent_wrap_counterexample :
    (downloadFirmware demoManager "u" 67108864 true
        (List.replicate 65536 fullChunk)).1 = true
  ∧ (progressValues (downloadFirmware demoManager "u" 67108864 true
        (List.replicate 65536 fullChunk)).2.2).getLast? = some 36
  ∧ percentOf 67108864 67108864 = 36 := by
  have hnum : (65536 : Nat) = 65535 + 1 := rfl
  have hrep := dlLoop_replicate_full 65535
    { demoManager with totalSize := 67108864, downloadedSize := 0 } rfl (by decide)
  rw [← hnum] at hrep
  rcases hr : dlLoop { demoManager with totalSize := 67108864, downloadedSize := 0 }
      (List.replicate 65536 fullChunk) with ⟨flag, st1, acts⟩
  rw [hr] at hrep
  obtain ⟨h1, h2, h3⟩ := hrep
  have hflag : flag = true := h1
  have hfull : st1.downloadedSize = 67108864 := h2
  have hlast : (progressValues acts).getLast? = some (percentOf 67108864 67108864) := h3
  have htS : st1.totalSize = 67108864 := by
    have h := dlLoop_totalSize { demoManager with totalSize := 67108864, downloadedSize := 0 }
      (List.replicate 65536 fullChunk)
    rw [hr] at h
    exact h
  have hrun := downloadFirmware_run demoManager "u" 67108864
    (List.replicate 65536 fullChunk) flag st1 acts hr
  subst hflag
  have hflagg : (downloadFirmware demoManager "u" 67108864 true
      (List.replicate 65536 fullChunk)).1 = true := by
    rw [hrun, if_neg (by simp), if_neg (by omega)]
  have htrace : (downloadFirmware demoManager "u" 67108864 true
      (List.replicate 65536 fullChunk)).2.2
      = updateStatus demoManager "Downloading firmware..." ++ [Action.httpGet "u"] ++ acts := by
    rw [hrun, if_neg (by simp), if_neg (by omega)]
  refine ⟨hflagg, ?_, by decide⟩
  have hpv : progressValues [Action.httpGet "u"] = [] := rfl
  rw [htrace, progressValues_append, progressValues_append, progressValues_updateStatus,
    hpv, List.nil_append, List.nil_append, hlast]
  decide

end OTA
